import Mathlib

/-!
# netstat_list: output classifier, retry loop, status queries

A shallow embedding of the polling and read paths of the repository:

* the output classifier and the retry loop of `connectToServer`
  (`linux-autoupdate/autoupdate_netstat/status_netstat.go`);
* the windowed status query shared by `redis_api_netstat/api_redis_netstat.go`,
  `restfullapi2/netstat_api2.go` and `getQuery` of `redis_api_synsent/synsent_api.go`;
* the de-duplicating read handler `getData` of `mysql/restfullapi/netstat_api.go`.
* the earlier pollers `mysql/status_netstat.go` and `sqlite/status_netstat.go`;
* the admission gate of `main` in linux-autoupdate, as a transition system;
* the cache-fronted handlers `getData` of `redis_api_netstat` and `redis_api_synsent`.

Go strings handled by the classifier are lists of Unicode characters; the
command output is taken as already decoded text.
-/

namespace Netstat

/-! ## Strings of the Go standard library -/

/-- A Go string, as the sequence of its characters. -/
abbrev GoString := List Char

/-- The predicate `unicode.IsSpace`: the Latin-1 white space characters and the
code points of the Unicode `White_Space` property. -/
def isSpace (c : Char) : Bool :=
  let n := c.toNat
  (9 ≤ n && n ≤ 13) || n == 0x20 || n == 0x85 || n == 0xA0 || n == 0x1680 ||
  (0x2000 ≤ n && n ≤ 0x200A) || n == 0x2028 || n == 0x2029 || n == 0x202F ||
  n == 0x205F || n == 0x3000

/-- The test `strings.Contains s substr`: some suffix of `s` starts with `substr`. -/
def contains : GoString → GoString → Bool
  | [], sub => sub.isPrefixOf []
  | c :: cs, sub => sub.isPrefixOf (c :: cs) || contains cs sub

/-- The scan behind `bytes.Split output "\n"`, with the segment read so far kept in
reverse in `cur`: every newline closes a segment, the end of input closes the last. -/
def splitGo (cur : GoString) : GoString → List GoString
  | [] => [cur.reverse]
  | c :: cs => if c = '\n' then cur.reverse :: splitGo [] cs else splitGo (c :: cur) cs

/-- The call `bytes.Split(output, []byte("\n"))`. -/
def splitLines (output : GoString) : List GoString := splitGo [] output

/-- The scan behind `strings.Fields`, with the field read so far kept in reverse in
`cur`: a white space character closes a non-empty field, runs of white space
produce nothing. -/
def fieldsGo (cur : GoString) : GoString → List GoString
  | [] => if cur.isEmpty then [] else [cur.reverse]
  | c :: cs =>
    if isSpace c then
      (if cur.isEmpty then fieldsGo [] cs else cur.reverse :: fieldsGo [] cs)
    else fieldsGo (c :: cur) cs

/-- The call `strings.Fields(line)`. -/
def fields (line : GoString) : List GoString := fieldsGo [] line

/-! ## Output classifier of `connectToServer` (linux-autoupdate, lines 177-192) -/

/-- The literal `"master"`. -/
def master : GoString := "master".toList

/-- The literal `"ESTABLISHED"`. -/
def ESTABLISHED : GoString := "ESTABLISHED".toList

/-- The literal `"SYN_SENT"`. -/
def SYN_SENT : GoString := "SYN_SENT".toList

/-- One iteration of the inner loop `for _, part := range parts`, on the pair
`(foreignAddress, statusOutput)`. -/
def classifyPart (acc : GoString × GoString) (part : GoString) : GoString × GoString :=
  if contains part master then (part, acc.2)
  else if part = ESTABLISHED ∨ part = SYN_SENT then (acc.1, part)
  else acc

/-- The inner loop over the fields of the matching line, started from the zero
values of `foreignAddress` and `statusOutput`. -/
def classifyParts (parts : List GoString) : GoString × GoString :=
  parts.foldl classifyPart ([], [])

/-- The outer loop `for _, line := range lines`: the first line containing
`"master"` is classified and the loop is left by `break`. -/
def classifyLines : List GoString → GoString × GoString
  | [] => ([], [])
  | line :: rest =>
    if contains line master then classifyParts (fields line) else classifyLines rest

/-- The pair `(foreignAddress, statusOutput)` computed from the command output. -/
def classify (output : GoString) : GoString × GoString :=
  classifyLines (splitLines output)

/-- A field that is exactly one of the two state keywords. -/
def isState (part : GoString) : Bool := decide (part = ESTABLISHED ∨ part = SYN_SENT)

/-- The first line of the output that contains `"master"`, if there is one. -/
def firstMasterLine (output : GoString) : Option GoString :=
  (splitLines output).find? (fun l => contains l master)

/-- The last field of a line that satisfies `p`, if there is one. -/
def lastField (p : GoString → Bool) (line : GoString) : Option GoString :=
  ((fields line).filter p).getLast?

/-- The line of the scenario of the specification. -/
def scenarioLine : GoString := "tcp 0 0 10.0.0.5:5000 10.0.0.9:7000-master ESTABLISHED".toList

/-! ## Retry loop of `connectToServer` (linux-autoupdate, lines 109-199) -/

/-- The nullable address of a server, as the inventory delivers it. -/
structure IPField where
  String : GoString
  Valid : Bool
deriving DecidableEq, Repr

/-- A remote server: its address and its alias. -/
structure Server where
  IP : IPField
  Alias : GoString
deriving DecidableEq, Repr

/-- Max number of retries for SSH connection. -/
def maxRetries : Nat := 2

/-- What one pass through the loop body meets: `ssh.Dial` fails, `client.NewSession`
fails, `session.CombinedOutput` fails, or the command returns its output. -/
inductive ProbeOutcome where
  | dialFailed
  | sessionFailed
  | commandFailed
  | output (raw : GoString)
deriving DecidableEq, Repr

/-- An outcome on one of the three error branches of the loop body. -/
def ProbeOutcome.isFailure : ProbeOutcome → Bool
  | .output _ => false
  | _ => true

/-- The externally visible steps of one call of `connectToServer`, in order. -/
inductive Event where
  /-- one `ssh.Dial` to `address:22`, with what the pass met -/
  | dial (address : GoString) (met : ProbeOutcome)
  /-- one `time.Sleep(5 * time.Second)` -/
  | sleep
  /-- one call `insertDataToDatabase(db, server, foreignAddress, statusOutput)` -/
  | insert (server : Server) (foreignAddress statusOutput : GoString)
deriving DecidableEq, Repr

/-- The `for` loop of `connectToServer`. `probe k` is what the `k`-th pass (from 0)
meets; `attempt` counts the passes made so far and `retryCount` is the variable of
the same name. The loop has no bound of its own, so the model runs on `fuel`
passes and returns `none` when they are used up. -/
def connectLoop (server : Server) (probe : Nat → ProbeOutcome) :
    (fuel : Nat) → (attempt retryCount : Nat) → Option (List Event)
  | 0, _, _ => none
  | fuel + 1, attempt, retryCount =>
    let dial := Event.dial (server.IP.String ++ ":22".toList) (probe attempt)
    match probe attempt with
    | .dialFailed =>
      let retryCount := retryCount + 1
      if retryCount ≥ maxRetries then
        some [dial, Event.insert server [] "Failed to Connect".toList]
      else
        (connectLoop server probe fuel (attempt + 1) retryCount).map
          (fun rest => dial :: Event.sleep :: rest)
    | .sessionFailed =>
      let retryCount := retryCount + 1
      if retryCount ≥ maxRetries then
        some [dial, Event.insert server [] "Failed to Connect".toList]
      else
        (connectLoop server probe fuel (attempt + 1) retryCount).map
          (fun rest => dial :: Event.sleep :: rest)
    | .commandFailed =>
      let retryCount := retryCount + 1
      if retryCount ≥ maxRetries then
        some [dial, Event.insert server [] "Failed to Execute Command".toList]
      else
        (connectLoop server probe fuel (attempt + 1) retryCount).map
          (fun rest => dial :: Event.sleep :: rest)
    | .output raw =>
      some [dial, Event.insert server (classify raw).1 (classify raw).2]

/-- The function `connectToServer`: an invalid address is recorded at once,
otherwise the loop starts with `retryCount := 0`. -/
def connectToServer (server : Server) (probe : Nat → ProbeOutcome) (fuel : Nat) :
    Option (List Event) :=
  if !server.IP.Valid then
    some [Event.insert server [] "Invalid IP".toList]
  else
    connectLoop server probe fuel 0 0

/-- The outcomes met by the passes of a run, in order. -/
def attempts : List Event → List ProbeOutcome
  | [] => []
  | .dial _ met :: rest => met :: attempts rest
  | _ :: rest => attempts rest

/-- The observations recorded by a run, as `(server, foreignAddress, statusOutput)`. -/
def recorded : List Event → List (Server × GoString × GoString)
  | [] => []
  | .insert server fa st :: rest => (server, fa, st) :: recorded rest
  | _ :: rest => recorded rest

/-- The state written when the retry budget ends on the given failure. -/
def failureMarker : ProbeOutcome → GoString
  | .dialFailed => "Failed to Connect".toList
  | .sessionFailed => "Failed to Connect".toList
  | .commandFailed => "Failed to Execute Command".toList
  | .output _ => []


/-! ## The history table and the windowed status query

The table `display_status` is a list of rows, in the order the engine enumerates
them. Its columns are not nullable here: the poller writes Go strings and the
store fills `id` and `date_time`. `date_time` is a count of seconds.

String comparison in the store goes through the collation of the column, which
the repository does not fix. A collation is given by its weight function `wt`:
two strings are equal for the store exactly when their weights are equal
(`wt = id` is a binary collation, case folding gives a case-insensitive one). -/

/-- One row of `display_status`, with the fields of the Go struct `Data`. -/
structure Data where
  ID : Int
  DateTime : Nat
  IDUnit : GoString
  IPUnit : GoString
  ForeignAddr : GoString
  StatusID : GoString
deriving DecidableEq, Repr

/-- Weights of a case-insensitive collation on ASCII letters. -/
def foldCase (s : GoString) : GoString := s.map Char.toLower

/-- The groups of `GROUP BY key` or `PARTITION BY key`: for each class of the key,
the rows of that class. -/
def partitionBy (key : Data → GoString) (rows : List Data) : List (List Data) :=
  ((rows.map key).dedup).map (fun k => rows.filter (fun r => key r = k))

/-- The aggregate `MAX(date_time)` over a group. -/
def maxDateTime (rows : List Data) : Nat :=
  (rows.map (fun r => r.DateTime)).foldr max 0

/-- The table expression `LastEstablished`: `SELECT id_unit, MAX(date_time) FROM
display_status WHERE status = 'established' GROUP BY id_unit`. -/
def LastEstablished (wt : GoString → GoString) (display_status : List Data) :
    List (GoString × Nat) :=
  (partitionBy (fun r => wt r.IDUnit)
      (display_status.filter (fun r => wt r.StatusID = wt "established".toList))).filterMap
    (fun g => g.head?.map (fun r => (r.IDUnit, maxDateTime g)))

/-- The numbering of one partition by `ROW_NUMBER()`, first row numbered `n`. -/
def numberFrom (n : Nat) : List Data → List (Data × Nat)
  | [] => []
  | r :: rs => (r, n) :: numberFrom (n + 1) rs

/-- The window `ROW_NUMBER() OVER (PARTITION BY key ORDER BY ord)`: each partition is
sorted (rows equal for `ord` keep their order of enumeration) and numbered from 1. -/
def rowNumber (key : Data → GoString) (ord : Data → Data → Bool) (rows : List Data) :
    List (Data × Nat) :=
  (partitionBy key rows).flatMap
    (fun g => numberFrom 1 (g.insertionSort (fun a b => ord a b = true)))

/-- The rows selected inside `RankedSynSent`: `FROM display_status ds INNER JOIN
LastEstablished le ON ds.id_unit = le.id_unit WHERE ds.date_time >
le.last_established AND ds.status = 'syn_sent'`, one copy of `ds` for each `le` it
joins. -/
def joinedSynSent (wt : GoString → GoString) (display_status : List Data) : List Data :=
  display_status.flatMap (fun ds =>
    ((LastEstablished wt display_status).filter (fun le =>
        wt ds.IDUnit = wt le.1 ∧ ds.DateTime > le.2 ∧
        wt ds.StatusID = wt "syn_sent".toList)).map (fun _ => ds))

/-- The table expression `RankedSynSent`: the joined rows, numbered per `id_unit` by
ascending `date_time`. -/
def RankedSynSent (wt : GoString → GoString) (display_status : List Data) :
    List (Data × Nat) :=
  rowNumber (fun r => wt r.IDUnit) (fun a b => a.DateTime ≤ b.DateTime)
    (joinedSynSent wt display_status)

/-- The table expression `FirstSynSent`: the rows of `RankedSynSent` with `rn = 1`. -/
def FirstSynSent (wt : GoString → GoString) (display_status : List Data) : List Data :=
  ((RankedSynSent wt display_status).filter (fun p => p.2 = 1)).map Prod.fst

/-- The table expression `RankedLatestStatus`: all rows, numbered per `id_unit` by
descending `date_time`. -/
def RankedLatestStatus (wt : GoString → GoString) (display_status : List Data) :
    List (Data × Nat) :=
  rowNumber (fun r => wt r.IDUnit) (fun a b => a.DateTime ≥ b.DateTime) display_status

/-- The table expression `LatestStatus`: the rows of `RankedLatestStatus` with
`rn = 1`. -/
def LatestStatus (wt : GoString → GoString) (display_status : List Data) : List Data :=
  ((RankedLatestStatus wt display_status).filter (fun p => p.2 = 1)).map Prod.fst

/-- Lexicographic order on weights, by character code. -/
def weightLt : GoString → GoString → Bool
  | _, [] => false
  | [], _ :: _ => true
  | a :: as, b :: bs => a.toNat < b.toNat || (a.toNat == b.toNat && weightLt as bs)

/-- The ordering `ORDER BY id_unit, date_time`. -/
def orderByUnitTime (wt : GoString → GoString) (a b : Data) : Bool :=
  weightLt (wt a.IDUnit) (wt b.IDUnit) ||
    (wt a.IDUnit == wt b.IDUnit && a.DateTime ≤ b.DateTime)

/-- The windowed status query (`getQuery`, and the same text in both `getData`
handlers): `FirstSynSent UNION (LatestStatus WHERE id_unit NOT IN (SELECT id_unit
FROM FirstSynSent)) ORDER BY id_unit, date_time`. -/
def getQuery (wt : GoString → GoString) (display_status : List Data) : List Data :=
  ((FirstSynSent wt display_status ++
      (LatestStatus wt display_status).filter (fun r =>
        ∀ f ∈ FirstSynSent wt display_status, wt r.IDUnit ≠ wt f.IDUnit)).dedup).insertionSort
    (fun a b => orderByUnitTime wt a b = true)

/-! ## The simple read handler `getData` (mysql/restfullapi/netstat_api.go) -/

namespace Restfullapi

/-- The query text of the handler: `SELECT ... FROM display_status WHERE status IN
('SYN_SENT', 'ESTABLISHED', 'Failed to Connect', '') ORDER BY date_time DESC`;
rows of equal `date_time` keep their order of enumeration. -/
def query (wt : GoString → GoString) (display_status : List Data) : List Data :=
  (display_status.filter (fun r =>
      wt r.StatusID = wt "SYN_SENT".toList ∨ wt r.StatusID = wt "ESTABLISHED".toList ∨
      wt r.StatusID = wt "Failed to Connect".toList ∨ wt r.StatusID = wt [])).insertionSort
    (fun a b => a.DateTime ≥ b.DateTime)

/-- A statement sent to the store: a `SELECT`, as the read handlers send through
`db.Query`, or the `INSERT` of `insertDataToDatabase`, with the row as the store
completes it (`id`, `date_time`). -/
inductive Statement where
  | select (q : List Data → List Data)
  | insert (row : Data)

/-- The execution of a statement by the store: the rows returned and the store after
it. -/
def Statement.run : Statement → List Data → List Data × List Data
  | .select q, store => (q store, store)
  | .insert row, store => ([], store ++ [row])

/-- The call `db.Query(query)`, the only call the handler makes on `db`: its text is
a `SELECT`. -/
def dbQuery (q : List Data → List Data) (store : List Data) : List Data × List Data :=
  (Statement.select q).run store

/-- The body of `for rows.Next()` on the pair `(data, seen)`; the map `seen` is kept
as the list of its keys. -/
def scanRow (st : List Data × List GoString) (d : Data) : List Data × List GoString :=
  if d.IDUnit ∉ st.2 ∧
      (d.StatusID = "SYN_SENT".toList ∨ d.StatusID = "ESTABLISHED".toList ∨
        d.StatusID = "Failed to Connect".toList ∨ d.StatusID = []) then
    (st.1 ++ [if d.StatusID = [] then
        { d with StatusID := "Netstat not detect Master".toList } else d],
      d.IDUnit :: st.2)
  else st

/-- The slice `data` after the loop over the delivered rows. -/
def scanRows (rows : List Data) : List Data :=
  (rows.foldl scanRow ([], [])).1

/-- The handler on a store: the rows of the response (marshalled to JSON by the
code) and the store after the request. -/
def getData (wt : GoString → GoString) (store : List Data) : List Data × List Data :=
  let res := dbQuery (query wt) store
  (scanRows res.1, res.2)

/-- The four states the handler lets through. -/
def admitted (d : Data) : Prop :=
  d.StatusID = "SYN_SENT".toList ∨ d.StatusID = "ESTABLISHED".toList ∨
    d.StatusID = "Failed to Connect".toList ∨ d.StatusID = []

instance (d : Data) : Decidable (admitted d) := by unfold admitted; infer_instance

/-- The first row of a unit among its rows with an admitted state. -/
def firstAdmitted (rows : List Data) (u : GoString) : Option Data :=
  (rows.filter (fun r => r.IDUnit = u ∧ admitted r)).head?

/-- The relabelling applied to a row before it is appended to `data`. -/
def relabel (d : Data) : Data :=
  if d.StatusID = [] then { d with StatusID := "Netstat not detect Master".toList } else d

/-- The rows the loop appends, in order, when it starts with the keys `seen`. -/
def kept (seen : List GoString) : List Data → List Data
  | [] => []
  | d :: ds =>
    if d.IDUnit ∉ seen ∧ admitted d then d :: kept (d.IDUnit :: seen) ds else kept seen ds

end Restfullapi

/-- The rows numbered 1 by `ROW_NUMBER() OVER (PARTITION BY key ORDER BY ord)`: the
head of each sorted partition. -/
def firstRows (key : Data → GoString) (ord : Data → Data → Bool) (rows : List Data) :
    List Data :=
  (partitionBy key rows).filterMap
    (fun g => (g.insertionSort (fun a b => ord a b = true)).head?)

/-! ## Reading the windowed query per host -/

/-- The observations of host `h` in the table; the store identifies aliases up to
its collation. -/
def history (wt : GoString → GoString) (display_status : List Data) (h : GoString) :
    List Data :=
  display_status.filter (fun r => wt r.IDUnit = wt h)

/-- The rows the windowed query returns for host `h`. -/
def returned (wt : GoString → GoString) (display_status : List Data) (h : GoString) :
    List Data :=
  (getQuery wt display_status).filter (fun r => wt r.IDUnit = wt h)

/-- The timestamp of the last ESTABLISHED observation of host `h`. -/
def lastEstablished (wt : GoString → GoString) (display_status : List Data)
    (h : GoString) : Nat :=
  maxDateTime ((history wt display_status h).filter (fun r => r.StatusID = ESTABLISHED))

/-- Row `s` is strictly later than every ESTABLISHED observation of host `h`. -/
def afterEstablished (wt : GoString → GoString) (display_status : List Data)
    (h : GoString) (s : Data) : Prop :=
  ∀ e ∈ history wt display_status h, e.StatusID = ESTABLISHED → e.DateTime < s.DateTime

instance (wt : GoString → GoString) (display_status : List Data) (h : GoString) (s : Data) :
    Decidable (afterEstablished wt display_status h s) := by
  unfold afterEstablished; infer_instance

/-- The states of the table are spelled as the poller stores them: the rows the
store matches with the literals `'established'` and `'syn_sent'` of the query are
the rows whose state is "ESTABLISHED" and "SYN_SENT". -/
def StoredAsPolled (wt : GoString → GoString) (display_status : List Data) : Prop :=
  ∀ r ∈ display_status,
    (wt r.StatusID = wt "established".toList ↔ r.StatusID = ESTABLISHED) ∧
    (wt r.StatusID = wt "syn_sent".toList ↔ r.StatusID = SYN_SENT)

instance (wt : GoString → GoString) (display_status : List Data) :
    Decidable (StoredAsPolled wt display_status) := by
  unfold StoredAsPolled; infer_instance

/-- A sample row: alias, time and state, the other columns fixed. -/
def obs (id : Int) (unit : String) (t : Nat) (status : String) : Data :=
  ⟨id, t, unit.toList, "10.0.0.1".toList, [], status.toList⟩

/-- Host A reconnecting after an established connection, host B never established. -/
def sampleReconnect : List Data :=
  [obs 1 "A" 10 "ESTABLISHED", obs 2 "A" 20 "SYN_SENT", obs 3 "A" 30 "SYN_SENT",
    obs 4 "B" 5 "SYN_SENT"]

/-- Host A never established: two pending connections, then a failed poll. -/
def sampleNeverEstablished : List Data :=
  [obs 1 "A" 10 "SYN_SENT", obs 2 "A" 20 "SYN_SENT", obs 3 "A" 30 "Failed to Connect"]

/-- Host A established after a pending connection, then polled without master line. -/
def sampleRecovered : List Data :=
  [obs 1 "A" 10 "SYN_SENT", obs 2 "A" 20 "ESTABLISHED", obs 3 "A" 30 "", obs 4 "B" 7 "ESTABLISHED"]

/-! ## The earlier pollers (mysql/status_netstat.go, sqlite/status_netstat.go) -/

namespace Mysql

/-- A remote server with its IP address, username, password, and alias. -/
structure Server where
  IP : GoString
  Username : GoString
  Password : GoString
  Alias : GoString
deriving DecidableEq, Repr

/-- The scan behind `strings.Split(line, " ")`, with the piece read so far kept in
reverse in `cur`: every space closes a piece, the end of input closes the last. -/
def splitSpaceGo (cur : GoString) : GoString → List GoString
  | [] => [cur.reverse]
  | c :: cs =>
    if c = ' ' then cur.reverse :: splitSpaceGo [] cs else splitSpaceGo (c :: cur) cs

/-- The call `strings.Split(string(line), " ")`. -/
def splitSpace (line : GoString) : List GoString := splitSpaceGo [] line

/-- The outer loop over the lines, with the parts of the matching line obtained by
`strings.Split(string(line), " ")`; the inner loop is the one of `classifyPart`. -/
def classifyLines : List GoString → GoString × GoString
  | [] => ([], [])
  | line :: rest =>
    if contains line master then classifyParts (splitSpace line) else classifyLines rest

/-- The pair `(foreignAddress, statusOutput)` computed from the command output by
both earlier pollers. -/
def classify (output : GoString) : GoString × GoString :=
  classifyLines (splitLines output)

/-- What one pass through the loop body of the mysql poller meets, with the results
of the `Close` calls whose error it tests. -/
inductive Pass where
  /-- `ssh.Dial` fails -/
  | dialFailed
  /-- `client.NewSession` fails; `client.Close()` then fails or not -/
  | sessionFailed (closeFailed : Bool)
  /-- `session.CombinedOutput` fails; `client.Close()` then fails or not -/
  | commandFailed (closeFailed : Bool)
  /-- the command returns its output; `session.Close()` and `client.Close()` fail or not -/
  | output (raw : GoString) (sessionCloseFailed clientCloseFailed : Bool)
deriving DecidableEq, Repr

/-- The externally visible steps of one call of `connectToServer`, in order. -/
inductive Event where
  /-- one `ssh.Dial` to `address:22` -/
  | dial (address : GoString)
  /-- one `time.Sleep(5 * time.Second)` -/
  | sleep
  /-- one call `insertDataToDatabase(db, server, foreignAddress, statusOutput)` -/
  | insert (server : Server) (foreignAddress statusOutput : GoString)
deriving DecidableEq, Repr

/-- The local variable `maxRetries` of the mysql poller. -/
def maxRetries : Nat := 1

/-- The `for` loop of `connectToServer` in mysql/status_netstat.go, on `fuel`
passes; `passes k` is what the `k`-th pass meets. -/
def connectLoop (server : Server) (passes : Nat → Pass) :
    (fuel : Nat) → (attempt retryCount : Nat) → Option (List Event)
  | 0, _, _ => none
  | fuel + 1, attempt, retryCount =>
    let dial := Event.dial (server.IP ++ ":22".toList)
    match passes attempt with
    | .dialFailed =>
      let retryCount := retryCount + 1
      if retryCount ≥ maxRetries then
        some [dial, Event.insert server [] "Failed to Connect".toList]
      else
        (connectLoop server passes fuel (attempt + 1) retryCount).map
          (fun rest => dial :: Event.sleep :: rest)
    | .sessionFailed closeFailed =>
      if closeFailed then some [dial]
      else
        let retryCount := retryCount + 1
        if retryCount ≥ maxRetries then
          some [dial, Event.insert server [] "Failed to Connect".toList]
        else
          (connectLoop server passes fuel (attempt + 1) retryCount).map
            (fun rest => dial :: Event.sleep :: rest)
    | .commandFailed closeFailed =>
      if closeFailed then some [dial]
      else
        let retryCount := retryCount + 1
        if retryCount ≥ maxRetries then
          some [dial, Event.insert server [] []]
        else
          (connectLoop server passes fuel (attempt + 1) retryCount).map
            (fun rest => dial :: Event.sleep :: rest)
    | .output raw sessionCloseFailed clientCloseFailed =>
      if sessionCloseFailed then some [dial]
      else if clientCloseFailed then some [dial]
      else some [dial, Event.insert server (classify raw).1 (classify raw).2]

/-- The function `connectToServer` of mysql/status_netstat.go. -/
def connectToServer (server : Server) (passes : Nat → Pass) (fuel : Nat) :
    Option (List Event) :=
  connectLoop server passes fuel 0 0

/-- The observations recorded by a run, as `(server, foreignAddress, statusOutput)`. -/
def recorded : List Event → List (Server × GoString × GoString)
  | [] => []
  | .insert server fa st :: rest => (server, fa, st) :: recorded rest
  | _ :: rest => recorded rest

end Mysql

namespace Sqlite

/-- The local variable `maxRetries` of the sqlite poller. -/
def maxRetries : Nat := 5

/-- The `for` loop of `connectToServer` in sqlite/status_netstat.go, on `fuel`
passes; `probe k` is what the `k`-th pass meets. The results of the `Close` calls
are not tested by this poller. -/
def connectLoop (server : Mysql.Server) (probe : Nat → ProbeOutcome) :
    (fuel : Nat) → (attempt retryCount : Nat) → Option (List Mysql.Event)
  | 0, _, _ => none
  | fuel + 1, attempt, retryCount =>
    let dial := Mysql.Event.dial (server.IP ++ ":22".toList)
    match probe attempt with
    | .dialFailed =>
      let retryCount := retryCount + 1
      if retryCount ≥ maxRetries then
        some [dial, Mysql.Event.insert server [] "Gagal".toList]
      else
        (connectLoop server probe fuel (attempt + 1) retryCount).map
          (fun rest => dial :: Mysql.Event.sleep :: rest)
    | .sessionFailed =>
      let retryCount := retryCount + 1
      if retryCount ≥ maxRetries then
        some [dial, Mysql.Event.insert server [] "Gagal".toList]
      else
        (connectLoop server probe fuel (attempt + 1) retryCount).map
          (fun rest => dial :: Mysql.Event.sleep :: rest)
    | .commandFailed =>
      let retryCount := retryCount + 1
      if retryCount ≥ maxRetries then
        some [dial, Mysql.Event.insert server [] []]
      else
        (connectLoop server probe fuel (attempt + 1) retryCount).map
          (fun rest => dial :: Mysql.Event.sleep :: rest)
    | .output raw =>
      some [dial, Mysql.Event.insert server (Mysql.classify raw).1 (Mysql.classify raw).2]

/-- The function `connectToServer` of sqlite/status_netstat.go. -/
def connectToServer (server : Mysql.Server) (probe : Nat → ProbeOutcome) (fuel : Nat) :
    Option (List Mysql.Event) :=
  connectLoop server probe fuel 0 0

end Sqlite

/-- A sample server of the earlier pollers. -/
def sampleOldServer : Mysql.Server :=
  ⟨"172.16.101.146".toList, "User".toList, "Pass".toList, "X5-056".toList⟩

/-! ## The admission gate of `main` (linux-autoupdate, lines 70-85)

The loop of `main` and the goroutines it starts are run as a transition system on
counters: each step below is one statement of the source executed by `main` or by
one goroutine, and a schedule is any sequence of such steps. -/

/-- Max number of concurrent SSH connections. -/
def maxConcurrentConnections : Nat := 100

/-- The state of the polling engine between two steps. -/
structure Engine where
  /-- servers the `for` loop of `main` has not yet ranged over -/
  remaining : Nat
  /-- `main` has sent its token for the current server and not yet executed `go` -/
  holding : Bool
  /-- values held by the buffered channel `concurrencyLimiter` -/
  tokens : Nat
  /-- goroutines created whose call of `connectToServer` has not begun -/
  created : Nat
  /-- goroutines inside `connectToServer` -/
  calling : Nat
  /-- goroutines whose `connectToServer` returned and that still hold their token -/
  returned : Nat
  /-- goroutines that have received from the channel -/
  finished : Nat
deriving DecidableEq, Repr

/-- One statement executed by `main` or by a goroutine. -/
inductive Step where
  /-- `main`: `concurrencyLimiter <- struct{}{}`, which blocks while the channel is full -/
  | acquire
  /-- `main`: `go func(server Server) {...}(server)` -/
  | spawn
  /-- a goroutine: the call `connectToServer(db, server, ...)` begins -/
  | enter
  /-- a goroutine: its call of `connectToServer` returns -/
  | leave
  /-- a goroutine: `<-concurrencyLimiter` -/
  | release
deriving DecidableEq, Repr

/-- The effect of one step, `none` when the step cannot be executed in that state. -/
def Engine.step (e : Engine) : Step → Option Engine
  | .acquire =>
    if 0 < e.remaining ∧ e.holding = false ∧ e.tokens < maxConcurrentConnections then
      some { e with tokens := e.tokens + 1, holding := true }
    else none
  | .spawn =>
    if e.holding = true then
      some { e with holding := false, remaining := e.remaining - 1, created := e.created + 1 }
    else none
  | .enter =>
    if 0 < e.created then
      some { e with created := e.created - 1, calling := e.calling + 1 }
    else none
  | .leave =>
    if 0 < e.calling then
      some { e with calling := e.calling - 1, returned := e.returned + 1 }
    else none
  | .release =>
    if 0 < e.returned ∧ 0 < e.tokens then
      some { e with returned := e.returned - 1, tokens := e.tokens - 1,
                    finished := e.finished + 1 }
    else none

/-- The execution of a schedule from a state. -/
def Engine.run (e : Engine) : List Step → Option Engine
  | [] => some e
  | st :: rest =>
    match e.step st with
    | none => none
    | some e' => e'.run rest

/-- The engine when `main` reaches its loop with `n` servers and an empty channel. -/
def Engine.start (n : Nat) : Engine := ⟨n, false, 0, 0, 0, 0, 0⟩

/-! ## The cache-fronted handlers (redis_api_netstat, redis_api_synsent)

A request is run against what its collaborators answer; the result is the list of
the calls the handler makes on them and on the response writer, in order. The
progress lines written by `log.Println` are left out. -/

/-- The result of `rdb.Get(ctx, "data2_cache").Result()`. -/
inductive CacheRead where
  /-- the error `redis.Nil` -/
  | notFound
  /-- any other error -/
  | failed (err : GoString)
  /-- a cached value -/
  | found (cachedData : GoString)
deriving DecidableEq, Repr

/-- A call made by a handler. -/
inductive Call where
  /-- `rdb.Get(ctx, key)` -/
  | cacheGet (key : GoString)
  /-- `http.Get(url)` on the inventory -/
  | apiGet (url : GoString)
  /-- `db.Query` with the text of the windowed query -/
  | dbQuery
  /-- `rdb.Set(ctx, key, value, ttl)`, `ttl` in seconds -/
  | cacheSet (key value : GoString) (ttl : Nat)
  /-- `log.Printf` of an error -/
  | logError (err : GoString)
  /-- `w.Header().Set(name, value)` -/
  | setHeader (name value : GoString)
  /-- `w.Write(body)` -/
  | write (body : GoString)
  /-- `http.Error(w, body, code)` -/
  | httpError (body : GoString) (code : Nat)
deriving DecidableEq, Repr

/-- What the collaborators answer during one request. -/
structure Env where
  /-- the answer of the cache read -/
  cache : CacheRead
  /-- the collation of the store -/
  wt : GoString → GoString
  /-- the table `display_status` -/
  store : List Data
  /-- the error of `db.Query`, `rows.Scan` or `rows.Err`, if one fails -/
  queryError : Option GoString
  /-- the function `json.Marshal` on the rows -/
  marshal : List Data → Except GoString GoString
  /-- the error of `rdb.Set`, if it fails -/
  setError : Option GoString
  /-- the error of `w.Write`, if it fails -/
  writeError : Option GoString
  /-- the answer of the inventory: an error, or the ids it lists -/
  api : Except GoString (List GoString)

/-- The duration `10*time.Minute`, in seconds. -/
def tenMinutes : Nat := 10 * 60

/-- The status `http.StatusInternalServerError`. -/
def StatusInternalServerError : Nat := 500

namespace RedisApi

/-- The handler `getData` of redis_api_netstat/api_redis_netstat.go. -/
def getData (env : Env) : List Call :=
  Call.cacheGet "data2_cache".toList ::
  match env.cache with
  | .notFound =>
    Call.dbQuery ::
    match env.queryError with
    | some err => [Call.logError err, Call.httpError err StatusInternalServerError]
    | none =>
      match env.marshal (getQuery env.wt env.store) with
      | .error err => [Call.logError err, Call.httpError err StatusInternalServerError]
      | .ok jsonData =>
        Call.cacheSet "data2_cache".toList jsonData tenMinutes ::
        ((match env.setError with
          | some err => [Call.logError err]
          | none => []) ++
        Call.setHeader "Content-Type".toList "application/json".toList ::
        Call.write jsonData ::
        (match env.writeError with
          | some err => [Call.logError err, Call.httpError err StatusInternalServerError]
          | none => []))
  | .failed err => [Call.logError err, Call.httpError err StatusInternalServerError]
  | .found cachedData =>
    Call.setHeader "Content-Type".toList "application/json".toList ::
    Call.write cachedData ::
    (match env.writeError with
      | some err => [Call.logError err, Call.httpError err StatusInternalServerError]
      | none => [])

end RedisApi

namespace Synsent

/-- The function `sendJSONResponse`. -/
def sendJSONResponse (env : Env) (data : GoString) : List Call :=
  Call.setHeader "Content-Type".toList "application/json".toList ::
  Call.write data ::
  (match env.writeError with
    | some err =>
      [Call.logError err,
        Call.httpError "Failed to send response".toList StatusInternalServerError]
    | none => [])

/-- The function `fetchDataFromDBAndAPI`: the calls it makes and what it returns. The
inventory is fetched first; the rows of the query are kept when their `id_unit` is
one of the ids of the inventory. -/
def fetchDataFromDBAndAPI (env : Env) : List Call × Except GoString (List Data) :=
  match env.api with
  | .error err => ([Call.apiGet "http://IP:5010/ipunit".toList], .error err)
  | .ok validIDUnits =>
    match env.queryError with
    | some err => ([Call.apiGet "http://IP:5010/ipunit".toList, Call.dbQuery], .error err)
    | none =>
      ([Call.apiGet "http://IP:5010/ipunit".toList, Call.dbQuery],
        .ok ((getQuery env.wt env.store).filter (fun d => d.IDUnit ∈ validIDUnits)))

/-- The handler `getData` of redis_api_synsent/synsent_api.go. -/
def getData (env : Env) : List Call :=
  Call.cacheGet "data2_cache".toList ::
  match env.cache with
  | .notFound =>
    (fetchDataFromDBAndAPI env).1 ++
    match (fetchDataFromDBAndAPI env).2 with
    | .error err =>
      [Call.logError err, Call.httpError "Failed to fetch data".toList StatusInternalServerError]
    | .ok data =>
      match env.marshal data with
      | .error err => [Call.logError err, Call.httpError err StatusInternalServerError]
      | .ok jsonData =>
        Call.cacheSet "data2_cache".toList jsonData tenMinutes ::
        ((match env.setError with
          | some err => [Call.logError err]
          | none => []) ++
        sendJSONResponse env jsonData)
  | .failed err =>
    [Call.logError err,
      Call.httpError "Failed to retrieve data".toList StatusInternalServerError]
  | .found cachedData => sendJSONResponse env cachedData

end Synsent

/-- The calls of a run made on the response writer. -/
def response (calls : List Call) : List Call :=
  calls.filter (fun c =>
    match c with
    | .setHeader _ _ => true
    | .write _ => true
    | .httpError _ _ => true
    | _ => false)

/-- The run asks the store. -/
def queriesStore (calls : List Call) : Bool := calls.contains Call.dbQuery

/-- The run writes to the cache. -/
def writesCache (calls : List Call) : Bool :=
  calls.any (fun c => match c with | .cacheSet _ _ _ => true | _ => false)

/-- A sample answer of the collaborators: the given cache read, the store of
`sampleReconnect` under a case-insensitive collation, no failure elsewhere, the
given answer of the inventory, and a marshaller that writes the aliases of the rows. -/
def sampleEnv (cache : CacheRead) (api : Except GoString (List GoString)) : Env :=
  { cache := cache, wt := foldCase, store := sampleReconnect, queryError := none,
    marshal := fun rows => .ok (rows.map (fun d => d.IDUnit)).flatten,
    setError := none, writeError := none, api := api }

/-! ## Lemmas on substrings, lines and fields -/

theorem contains_iff_sub (s sub : GoString) : contains s sub = true ↔ sub <:+: s := by
  induction s with
  | nil =>
    cases sub with
    | nil => simp [contains]
    | cons a t => simp [contains, List.isPrefixOf]
  | cons c cs ih =>
    rw [contains, Bool.or_eq_true, ih, List.isPrefixOf_iff_prefix, List.infix_cons_iff]

theorem prefix_of_prefix_append_cons {m a b : GoString} {c : Char}
    (h : m <+: a ++ c :: b) (hc : c ∉ m) : m <+: a := by
  have h2 : a ++ [c] <+: a ++ c :: b := ⟨b, by simp⟩
  rcases List.prefix_or_prefix_of_prefix h h2 with h3 | h3
  · rcases List.prefix_concat_iff.mp h3 with h4 | h4
    · exact absurd (by simp [h4]) hc
    · exact h4
  · obtain ⟨t, ht⟩ := h3
    exact absurd (by simp [← ht]) hc

theorem infix_split {m : GoString} {c : Char} (hc : c ∉ m) :
    ∀ (a b : GoString), m <:+: a ++ c :: b → m <:+: a ∨ m <:+: b := by
  intro a
  induction a with
  | nil =>
    intro b h
    rcases List.infix_cons_iff.mp h with h1 | h1
    · exact Or.inl (prefix_of_prefix_append_cons (a := []) h1 hc).isInfix
    · exact Or.inr h1
  | cons x a ih =>
    intro b h
    rcases List.infix_cons_iff.mp h with h1 | h1
    · exact Or.inl (prefix_of_prefix_append_cons (a := x :: a) h1 hc).isInfix
    · rcases ih b h1 with h2 | h2
      · exact Or.inl (List.infix_cons_iff.mpr (Or.inr h2))
      · exact Or.inr h2

theorem splitGo_sub_of_mem (l : GoString) :
    ∀ (cur t : GoString), t ∈ splitGo cur l → t <:+: cur.reverse ++ l := by
  induction l with
  | nil => intro cur t h; simp [splitGo] at h; simp [h]
  | cons c cs ih =>
    intro cur t h
    rw [splitGo] at h
    split at h
    · rcases List.mem_cons.mp h with h1 | h1
      · subst h1; exact (List.prefix_append _ _).isInfix
      · have := ih [] t h1
        simp only [List.reverse_nil, List.nil_append] at this
        exact this.trans ⟨cur.reverse ++ [c], [], by simp⟩
    · have := ih (c :: cur) t h
      simpa using this

theorem exists_line_of_sub {m : GoString} (hm : '\n' ∉ m) (l : GoString) :
    ∀ (cur : GoString), m <:+: cur.reverse ++ l → ∃ t ∈ splitGo cur l, m <:+: t := by
  induction l with
  | nil => intro cur h; exact ⟨cur.reverse, by simp [splitGo], by simpa using h⟩
  | cons c cs ih =>
    intro cur h
    rw [splitGo]
    split
    · rename_i hc
      subst hc
      rcases infix_split hm _ _ h with h1 | h1
      · exact ⟨cur.reverse, by simp, h1⟩
      · obtain ⟨t, ht, hmt⟩ := ih [] (by simpa using h1)
        exact ⟨t, List.mem_cons_of_mem _ ht, hmt⟩
    · exact ih (c :: cur) (by simpa using h)

theorem mem_fieldsGo (l : GoString) :
    ∀ (cur t : GoString), (∀ c ∈ cur, isSpace c = false) → t ∈ fieldsGo cur l →
      t ≠ [] ∧ (∀ c ∈ t, isSpace c = false) ∧ t <:+: cur.reverse ++ l := by
  induction l with
  | nil =>
    intro cur t hcur h
    rw [fieldsGo] at h
    split at h
    · simp at h
    · rename_i hne
      simp only [List.mem_singleton] at h
      subst h
      refine ⟨by simpa using hne, ?_, by simp⟩
      intro c hc
      exact hcur c (by simpa using hc)
  | cons c cs ih =>
    intro cur t hcur h
    rw [fieldsGo] at h
    have hnil : ∀ t, t ∈ fieldsGo [] cs →
        t ≠ [] ∧ (∀ c ∈ t, isSpace c = false) ∧ t <:+: cur.reverse ++ c :: cs := by
      intro t ht
      obtain ⟨h1, h2, h3⟩ := ih [] t (by simp) ht
      refine ⟨h1, h2, ?_⟩
      simp only [List.reverse_nil, List.nil_append] at h3
      exact h3.trans ⟨cur.reverse ++ [c], [], by simp⟩
    split at h
    · split at h
      · exact hnil t h
      · rename_i hne
        rcases List.mem_cons.mp h with h1 | h1
        · subst h1
          refine ⟨by simpa using hne, ?_, (List.prefix_append _ _).isInfix⟩
          intro c hc
          exact hcur c (by simpa using hc)
        · exact hnil t h1
    · rename_i hsp
      have := ih (c :: cur) t (by
        intro d hd
        rcases List.mem_cons.mp hd with h1 | h1
        · subst h1; simpa using hsp
        · exact hcur d h1) h
      simpa using this

theorem exists_field_of_sub {m : GoString} (hne : m ≠ [])
    (hm : ∀ c ∈ m, isSpace c = false) (l : GoString) :
    ∀ (cur : GoString), m <:+: cur.reverse ++ l → ∃ t ∈ fieldsGo cur l, m <:+: t := by
  induction l with
  | nil =>
    intro cur h
    rw [fieldsGo]
    have h' : m <:+: cur.reverse := by simpa using h
    split
    · rename_i hc
      have : cur = [] := by simpa using hc
      subst this
      simp at h'
      exact absurd h' hne
    · exact ⟨cur.reverse, by simp, h'⟩
  | cons c cs ih =>
    intro cur h
    rw [fieldsGo]
    split
    · rename_i hsp
      have hcm : c ∉ m := fun hc => by simpa [hsp] using hm c hc
      rcases infix_split hcm _ _ h with h1 | h1
      · split
        · rename_i hc
          have : cur = [] := by simpa using hc
          subst this
          simp at h1
          exact absurd h1 hne
        · exact ⟨cur.reverse, by simp, h1⟩
      · obtain ⟨t, ht, hmt⟩ := ih [] (by simpa using h1)
        split
        · exact ⟨t, ht, hmt⟩
        · exact ⟨t, List.mem_cons_of_mem _ ht, hmt⟩
    · exact ih (c :: cur) (by simpa using h)

/-! ## The classifier -/

theorem isState_not_master {t : GoString} (h : isState t = true) :
    contains t master = false := by
  simp only [isState, decide_eq_true_eq] at h
  rcases h with h | h <;> subst h <;> decide

theorem classifyParts_foldl (parts : List GoString) (acc : GoString × GoString) :
    parts.foldl classifyPart acc =
      (((parts.filter (fun t => contains t master)).getLast?).getD acc.1,
        ((parts.filter isState).getLast?).getD acc.2) := by
  induction parts using List.reverseRecOn with
  | nil => simp
  | append_singleton l a ih =>
    rw [List.foldl_concat, ih, List.filter_append, List.filter_append]
    by_cases hm : contains a master = true
    · have hs : isState a = false := by
        cases h : isState a
        · rfl
        · rw [isState_not_master h] at hm; exact absurd hm (by simp)
      simp [classifyPart, hm, hs, List.filter_cons]
    · by_cases hs : isState a = true
      · have hs' : a = ESTABLISHED ∨ a = SYN_SENT := by simpa [isState] using hs
        simp [classifyPart, hm, hs, hs', List.filter_cons]
      · have hs' : ¬ (a = ESTABLISHED ∨ a = SYN_SENT) := by simpa [isState] using hs
        simp [classifyPart, hm, hs, hs', List.filter_cons]

theorem classifyParts_eq (parts : List GoString) :
    classifyParts parts =
      (((parts.filter (fun t => contains t master)).getLast?).getD [],
        ((parts.filter isState).getLast?).getD []) :=
  classifyParts_foldl parts ([], [])

theorem classifyLines_of_find (lines : List GoString) (L : GoString)
    (h : lines.find? (fun l => contains l master) = some L) :
    classifyLines lines = classifyParts (fields L) := by
  induction lines with
  | nil => simp at h
  | cons l rest ih =>
    rw [classifyLines]
    by_cases hl : contains l master = true
    · simp [List.find?_cons, hl] at h
      subst h
      simp [hl]
    · simp [List.find?_cons, hl] at h
      simp [hl, ih h]

theorem classifyLines_of_none (lines : List GoString)
    (h : ∀ l ∈ lines, contains l master = false) : classifyLines lines = ([], []) := by
  induction lines with
  | nil => rfl
  | cons l rest ih =>
    rw [classifyLines]
    have hl := h l (by simp)
    simp [hl, ih (fun x hx => h x (List.mem_cons_of_mem _ hx))]

theorem classifyLines_prefix (pre : List GoString) (L : GoString) (post : List GoString)
    (hpre : ∀ l ∈ pre, contains l master = false) (hL : contains L master = true) :
    classifyLines (pre ++ L :: post) = classifyParts (fields L) := by
  induction pre with
  | nil => simp [classifyLines, hL]
  | cons l rest ih =>
    have hl := hpre l (by simp)
    simp only [List.cons_append, classifyLines, hl]
    simpa using ih (fun x hx => hpre x (List.mem_cons_of_mem _ hx))

theorem master_field_of_line {L : GoString} (hL : contains L master = true) :
    ∃ t ∈ fields L, contains t master = true := by
  have h1 : master <:+: L := (contains_iff_sub _ _).mp hL
  obtain ⟨t, ht, hmt⟩ := exists_field_of_sub (m := master) (by decide) (by decide) L []
    (by simpa using h1)
  exact ⟨t, ht, (contains_iff_sub _ _).mpr hmt⟩

theorem lastField_master_some {L : GoString} (hL : contains L master = true) :
    ∃ peer, lastField (fun t => contains t master) L = some peer ∧ peer ∈ fields L ∧
      contains peer master = true := by
  obtain ⟨t, ht, hmt⟩ := master_field_of_line hL
  have hne : (fields L).filter (fun t => contains t master) ≠ [] := by
    intro h
    have : t ∈ (fields L).filter (fun t => contains t master) := List.mem_filter.mpr ⟨ht, hmt⟩
    rw [h] at this
    simp at this
  cases hlast : ((fields L).filter (fun t => contains t master)).getLast? with
  | none => exact absurd (List.getLast?_eq_none_iff.mp hlast) hne
  | some peer =>
    have hmem := List.mem_of_mem_getLast? (Option.mem_def.mpr hlast)
    rw [List.mem_filter] at hmem
    exact ⟨peer, hlast, hmem.1, hmem.2⟩

theorem firstMasterLine_spec {output L : GoString} (h : firstMasterLine output = some L) :
    contains L master = true ∧ L ∈ splitLines output := by
  unfold firstMasterLine at h
  exact ⟨by simpa using List.find?_some h, List.mem_of_find?_eq_some h⟩

theorem firstMasterLine_isSome {output : GoString}
    (h : ∃ l ∈ splitLines output, contains l master = true) :
    ∃ L, firstMasterLine output = some L := by
  unfold firstMasterLine
  cases hf : (splitLines output).find? (fun l => contains l master) with
  | none =>
    obtain ⟨l, hl, hc⟩ := h
    have := List.find?_eq_none.mp hf l hl
    simp [hc] at this
  | some L => exact ⟨L, rfl⟩

theorem line_of_contains {output : GoString} (h : contains output master = true) :
    ∃ l ∈ splitLines output, contains l master = true := by
  have h1 : master <:+: output := (contains_iff_sub _ _).mp h
  obtain ⟨t, ht, hmt⟩ := exists_line_of_sub (m := master) (by decide) output []
    (by simpa using h1)
  exact ⟨t, ht, (contains_iff_sub _ _).mpr hmt⟩

theorem contains_of_line {output l : GoString} (hl : l ∈ splitLines output)
    (h : contains l master = true) : contains output master = true := by
  have h1 : master <:+: l := (contains_iff_sub _ _).mp h
  have h2 : l <:+: output := by simpa using splitGo_sub_of_mem output [] l hl
  exact (contains_iff_sub _ _).mpr (h1.trans h2)

theorem classify_of_first {output L : GoString} (hL : firstMasterLine output = some L) :
    classify output = classifyParts (fields L) ∧
    ∃ peer, lastField (fun t => contains t master) L = some peer ∧
      (classify output).1 = peer := by
  have hc : classify output = classifyParts (fields L) := classifyLines_of_find _ _ hL
  obtain ⟨peer, hpeer, _, _⟩ := lastField_master_some (firstMasterLine_spec hL).1
  refine ⟨hc, peer, hpeer, ?_⟩
  unfold lastField at hpeer
  rw [hc, classifyParts_eq, hpeer]; rfl

/-- C1: when some line of the output contains "master" and `L` is the first such
line, the recorded peer address is the last field of `L` containing "master", the
recorded state is the last field of `L` equal to "ESTABLISHED" or "SYN_SENT" (the
empty string when `L` has none), any output with the same lines up to `L` gives the
same pair, and the scenario line gives ("10.0.0.9:7000-master", "ESTABLISHED"). -/
theorem classify_first_master_line (output L : GoString)
    (hL : firstMasterLine output = some L) :
    (∃ peer, lastField (fun t => contains t master) L = some peer ∧
      (classify output).1 = peer) ∧
    (classify output).2 = (lastField isState L).getD [] ∧
    (∀ (output' : GoString) (pre post post' : List GoString),
      splitLines output = pre ++ L :: post → splitLines output' = pre ++ L :: post' →
      (∀ l ∈ pre, contains l master = false) → classify output' = classify output) ∧
    (L = scenarioLine →
      classify output = ("10.0.0.9:7000-master".toList, "ESTABLISHED".toList)) := by
  obtain ⟨hc, hpeer⟩ := classify_of_first hL
  have hLm := (firstMasterLine_spec hL).1
  refine ⟨hpeer, ?_, ?_, ?_⟩
  · rw [hc, classifyParts_eq]; rfl
  · intro output' pre post post' h1 h2 hpre
    unfold classify
    rw [h1, h2, classifyLines_prefix pre L post hpre hLm,
      classifyLines_prefix pre L post' hpre hLm]
  · intro hs
    rw [hc, hs]
    decide

/-- C1, on an output of three lines whose second line is the scenario line and
whose third line also contains "master". -/
theorem classify_first_master_line_witness :
    firstMasterLine
        ("Proto Recv-Q\n".toList ++ scenarioLine ++ "\ntcp 0 0 a:1 b-master SYN_SENT".toList)
      = some scenarioLine ∧
    classify ("Proto Recv-Q\n".toList ++ scenarioLine ++ "\ntcp 0 0 a:1 b-master SYN_SENT".toList)
      = ("10.0.0.9:7000-master".toList, "ESTABLISHED".toList) :=
  ⟨by decide,
    (classify_first_master_line _ scenarioLine (by decide)).2.2.2 rfl⟩

/-- C2: an output none of whose lines contains "master" is classified as ("", "");
the peer address is empty exactly when the output does not contain "master"; and
when some line contains "master", some field of that line contains it and the peer
address is a non-empty string without white space that contains "master". -/
theorem classify_peer_empty_iff (output : GoString) :
    ((∀ l ∈ splitLines output, contains l master = false) → classify output = ([], [])) ∧
    ((classify output).1 = [] ↔ contains output master = false) ∧
    (∀ l ∈ splitLines output, contains l master = true →
      (∃ t ∈ fields l, contains t master = true) ∧
      (classify output).1 ≠ [] ∧ (∀ c ∈ (classify output).1, isSpace c = false) ∧
      contains (classify output).1 master = true) := by
  have key : ∀ l ∈ splitLines output, contains l master = true →
      (classify output).1 ≠ [] ∧ (∀ c ∈ (classify output).1, isSpace c = false) ∧
      contains (classify output).1 master = true := by
    intro l hl hc
    obtain ⟨L, hL⟩ := firstMasterLine_isSome ⟨l, hl, hc⟩
    obtain ⟨_, peer, hpeer, heq⟩ := classify_of_first hL
    obtain ⟨peer', hpeer', hmem, hcm⟩ := lastField_master_some (firstMasterLine_spec hL).1
    rw [hpeer] at hpeer'
    cases hpeer'
    obtain ⟨h1, h2, _⟩ := mem_fieldsGo L [] peer (by simp) hmem
    rw [heq]
    exact ⟨h1, h2, hcm⟩
  refine ⟨classifyLines_of_none _, ⟨?_, ?_⟩, ?_⟩
  · intro hempty
    cases hcm : contains output master with
    | false => rfl
    | true =>
      obtain ⟨l, hl, hc⟩ := line_of_contains hcm
      exact absurd hempty (key l hl hc).1
  · intro hno
    have : ∀ l ∈ splitLines output, contains l master = false := by
      intro l hl
      cases hc : contains l master with
      | false => rfl
      | true => rw [contains_of_line hl hc] at hno; exact absurd hno (by simp)
    rw [show classify output = ([], []) from classifyLines_of_none _ this]
  · intro l hl hc
    exact ⟨master_field_of_line hc, key l hl hc⟩

/-! ## Window functions -/

theorem numberFrom_filter_one (l : List Data) :
    ∀ n, 2 ≤ n → (numberFrom n l).filter (fun p => decide (p.2 = 1)) = [] := by
  induction l with
  | nil => intro n _; rfl
  | cons r rs ih =>
    intro n hn
    have h1 : n ≠ 1 := by omega
    simp [numberFrom, h1, ih (n + 1) (by omega)]

theorem numberFrom_first (l : List Data) :
    ((numberFrom 1 l).filter (fun p => decide (p.2 = 1))).map Prod.fst = l.head?.toList := by
  cases l with
  | nil => rfl
  | cons r rs => simp [numberFrom, numberFrom_filter_one rs 2 (le_refl 2)]

theorem rowNumber_first (key : Data → GoString) (ord : Data → Data → Bool)
    (rows : List Data) :
    ((rowNumber key ord rows).filter (fun p => decide (p.2 = 1))).map Prod.fst
      = firstRows key ord rows := by
  unfold rowNumber firstRows
  generalize partitionBy key rows = gs
  induction gs with
  | nil => rfl
  | cons g gs ih =>
    rw [List.flatMap_cons, List.filter_append, List.map_append, ih, numberFrom_first,
      List.filterMap_cons]
    cases (g.insertionSort (fun a b => ord a b = true)).head? <;> rfl

theorem head_insertionSort {ord : Data → Data → Bool}
    (htot : ∀ a b, ord a b = true ∨ ord b a = true)
    (htr : ∀ a b c, ord a b = true → ord b c = true → ord a c = true)
    {g : List Data} {r : Data}
    (h : (g.insertionSort (fun a b => ord a b = true)).head? = some r) :
    r ∈ g ∧ ∀ r' ∈ g, ord r r' = true := by
  haveI : IsTotal Data (fun a b => ord a b = true) := ⟨htot⟩
  haveI : IsTrans Data (fun a b => ord a b = true) := ⟨htr⟩
  have hperm := List.perm_insertionSort (fun a b => ord a b = true) g
  have hsort := List.sorted_insertionSort (fun a b => ord a b = true) g
  obtain ⟨tl, htl⟩ := List.head?_eq_some_iff.mp h
  rw [htl] at hperm hsort
  refine ⟨hperm.mem_iff.mp (by simp), ?_⟩
  intro r' hr'
  rcases List.mem_cons.mp (hperm.mem_iff.mpr hr') with h1 | h1
  · subst h1
    rcases htot r' r' with h2 | h2 <;> exact h2
  · exact List.rel_of_sorted_cons hsort r' h1

theorem head_insertionSort_isSome (ord : Data → Data → Bool) {g : List Data}
    (hg : g ≠ []) : ∃ r, (g.insertionSort (fun a b => ord a b = true)).head? = some r := by
  have hperm := List.perm_insertionSort (fun a b => ord a b = true) g
  cases hs : g.insertionSort (fun a b => ord a b = true) with
  | nil =>
    rw [hs] at hperm
    exact absurd (List.Perm.nil_eq hperm).symm hg
  | cons r tl => exact ⟨r, rfl⟩

theorem mem_firstRows (key : Data → GoString) {ord : Data → Data → Bool}
    (htot : ∀ a b, ord a b = true ∨ ord b a = true)
    (htr : ∀ a b c, ord a b = true → ord b c = true → ord a c = true)
    {rows : List Data} {r : Data} (h : r ∈ firstRows key ord rows) :
    r ∈ rows ∧ ∀ r' ∈ rows, key r' = key r → ord r r' = true := by
  unfold firstRows partitionBy at h
  rw [List.mem_filterMap] at h
  obtain ⟨g, hg, hhead⟩ := h
  rw [List.mem_map] at hg
  obtain ⟨k, _, hk⟩ := hg
  subst hk
  obtain ⟨hr, hmin⟩ := head_insertionSort htot htr hhead
  rw [List.mem_filter] at hr
  have hkr : key r = k := by simpa using hr.2
  refine ⟨hr.1, ?_⟩
  intro r' hr' hkey
  exact hmin r' (List.mem_filter.mpr ⟨hr', by simp [hkey, hkr]⟩)

theorem exists_firstRows (key : Data → GoString) (ord : Data → Data → Bool)
    {rows : List Data} {r' : Data} (h : r' ∈ rows) :
    ∃ r ∈ firstRows key ord rows, key r = key r' := by
  have hg : rows.filter (fun x => key x = key r') ≠ [] := by
    intro hnil
    have : r' ∈ rows.filter (fun x => key x = key r') := List.mem_filter.mpr ⟨h, by simp⟩
    rw [hnil] at this
    simp at this
  obtain ⟨r, hr⟩ := head_insertionSort_isSome ord hg
  have hmem : r ∈ rows.filter (fun x => key x = key r') :=
    (List.perm_insertionSort (fun a b => ord a b = true) _).mem_iff.mp
      (List.mem_of_mem_head? (Option.mem_def.mpr hr))
  refine ⟨r, ?_, by simpa using (List.mem_filter.mp hmem).2⟩
  unfold firstRows partitionBy
  rw [List.mem_filterMap]
  exact ⟨_, List.mem_map.mpr ⟨key r', List.mem_dedup.mpr (List.mem_map_of_mem key h), rfl⟩, hr⟩

theorem nodup_map_filterMap {key : Data → GoString} (f : GoString → Option Data)
    (hf : ∀ k r, f k = some r → key r = k) :
    ∀ ks : List GoString, ks.Nodup → ((ks.filterMap f).map key).Nodup := by
  intro ks
  induction ks with
  | nil => intro _; simp
  | cons k ks ih =>
    intro hnd
    rw [List.nodup_cons] at hnd
    rw [List.filterMap_cons]
    cases hk : f k with
    | none => exact ih hnd.2
    | some r =>
      simp only [List.map_cons, List.nodup_cons]
      refine ⟨?_, ih hnd.2⟩
      intro hmem
      rw [List.mem_map] at hmem
      obtain ⟨r2, hr2, hkey⟩ := hmem
      rw [List.mem_filterMap] at hr2
      obtain ⟨k2, hk2, hfk2⟩ := hr2
      have : k2 = k := by rw [← hf k2 r2 hfk2, hkey, hf k r hk]
      exact hnd.1 (this ▸ hk2)

theorem nodup_firstRows (key : Data → GoString) (ord : Data → Data → Bool)
    (rows : List Data) : ((firstRows key ord rows).map key).Nodup := by
  unfold firstRows partitionBy
  rw [List.filterMap_map]
  apply nodup_map_filterMap _ _ _ (List.nodup_dedup _)
  intro k r hr
  have hmem : r ∈ rows.filter (fun x => key x = k) :=
    (List.perm_insertionSort (fun a b => ord a b = true) _).mem_iff.mp
      (List.mem_of_mem_head? (Option.mem_def.mpr hr))
  simpa using (List.mem_filter.mp hmem).2

/-! ## The table expressions of the windowed query -/

theorem le_maxDateTime {rows : List Data} {r : Data} (h : r ∈ rows) :
    r.DateTime ≤ maxDateTime rows := by
  induction rows with
  | nil => simp at h
  | cons a t ih =>
    simp only [maxDateTime, List.map_cons, List.foldr_cons]
    rcases List.mem_cons.mp h with h1 | h1
    · subst h1; exact le_max_left _ _
    · exact le_trans (ih h1) (le_max_right _ _)

theorem maxDateTime_lt {rows : List Data} {t : Nat} (hne : rows ≠ [])
    (h : ∀ r ∈ rows, r.DateTime < t) : maxDateTime rows < t := by
  induction rows with
  | nil => exact absurd rfl hne
  | cons a l ih =>
    simp only [maxDateTime, List.map_cons, List.foldr_cons]
    cases l with
    | nil => simpa [maxDateTime] using h a (by simp)
    | cons b l' =>
      have h2 := ih (by simp) (fun r hr => h r (List.mem_cons_of_mem _ hr))
      exact max_lt (h a (by simp)) h2

theorem mem_LastEstablished {wt : GoString → GoString} {T : List Data} {le : GoString × Nat}
    (h : le ∈ LastEstablished wt T) :
    (∃ e ∈ T.filter (fun r => wt r.StatusID = wt "established".toList),
        wt e.IDUnit = wt le.1) ∧
    le.2 = maxDateTime ((T.filter (fun r => wt r.StatusID = wt "established".toList)).filter
      (fun r => wt r.IDUnit = wt le.1)) := by
  unfold LastEstablished partitionBy at h
  rw [List.mem_filterMap] at h
  obtain ⟨g, hg, hhead⟩ := h
  rw [List.mem_map] at hg
  obtain ⟨k, _, hk⟩ := hg
  subst hk
  cases hh : (List.filter (fun r => decide (wt r.IDUnit = k))
      (T.filter (fun r => wt r.StatusID = wt "established".toList))).head? with
  | none => rw [hh] at hhead; simp at hhead
  | some r0 =>
    rw [hh] at hhead
    simp only [Option.map_some', Option.some.injEq] at hhead
    have hr0 := List.mem_of_mem_head? (Option.mem_def.mpr hh)
    rw [List.mem_filter] at hr0
    have hk0 : wt r0.IDUnit = k := by simpa using hr0.2
    subst hhead
    exact ⟨⟨r0, hr0.1, rfl⟩, by simp [hk0]⟩

theorem exists_LastEstablished {wt : GoString → GoString} {T : List Data} {e : Data}
    (h : e ∈ T.filter (fun r => wt r.StatusID = wt "established".toList)) :
    ∃ le ∈ LastEstablished wt T, wt le.1 = wt e.IDUnit := by
  have hg : (T.filter (fun r => wt r.StatusID = wt "established".toList)).filter
      (fun r => wt r.IDUnit = wt e.IDUnit) ≠ [] := by
    intro hnil
    have : e ∈ (T.filter (fun r => wt r.StatusID = wt "established".toList)).filter
        (fun r => wt r.IDUnit = wt e.IDUnit) := List.mem_filter.mpr ⟨h, by simp⟩
    rw [hnil] at this
    simp at this
  obtain ⟨r0, tl, hr0⟩ := List.exists_cons_of_ne_nil hg
  have hmem : r0 ∈ (T.filter (fun r => wt r.StatusID = wt "established".toList)).filter
      (fun r => wt r.IDUnit = wt e.IDUnit) := by rw [hr0]; simp
  have hk0 : wt r0.IDUnit = wt e.IDUnit := by simpa using (List.mem_filter.mp hmem).2
  refine ⟨(r0.IDUnit, maxDateTime ((T.filter (fun r =>
      wt r.StatusID = wt "established".toList)).filter (fun r => wt r.IDUnit = wt e.IDUnit))),
    ?_, hk0⟩
  unfold LastEstablished partitionBy
  rw [List.mem_filterMap]
  refine ⟨_, List.mem_map.mpr ⟨wt e.IDUnit,
    List.mem_dedup.mpr (List.mem_map_of_mem (fun r => wt r.IDUnit) h), rfl⟩, ?_⟩
  simp only [hr0]
  rfl

theorem mem_joinedSynSent {wt : GoString → GoString} {T : List Data} {r : Data} :
    r ∈ joinedSynSent wt T ↔
      r ∈ T ∧ wt r.StatusID = wt "syn_sent".toList ∧
      (∃ e ∈ T.filter (fun x => wt x.StatusID = wt "established".toList),
        wt e.IDUnit = wt r.IDUnit) ∧
      maxDateTime ((T.filter (fun x => wt x.StatusID = wt "established".toList)).filter
        (fun x => wt x.IDUnit = wt r.IDUnit)) < r.DateTime := by
  unfold joinedSynSent
  rw [List.mem_flatMap]
  constructor
  · rintro ⟨ds, hds, hr⟩
    rw [List.mem_map] at hr
    obtain ⟨le, hle, hrd⟩ := hr
    subst hrd
    rw [List.mem_filter] at hle
    obtain ⟨hle1, hcond⟩ := hle
    simp only [gt_iff_lt, Bool.decide_and, Bool.and_eq_true, decide_eq_true_eq] at hcond
    obtain ⟨hk, hlt, hsyn⟩ := hcond
    obtain ⟨⟨e, he, hke⟩, hmax⟩ := mem_LastEstablished hle1
    refine ⟨hds, hsyn, ⟨e, he, by rw [hke, hk]⟩, ?_⟩
    rw [hk, ← hmax]
    exact hlt
  · rintro ⟨hr, hsyn, ⟨e, he, hke⟩, hlt⟩
    obtain ⟨le, hle, hkl⟩ := exists_LastEstablished he
    refine ⟨r, hr, List.mem_map.mpr ⟨le, List.mem_filter.mpr ⟨hle, ?_⟩, rfl⟩⟩
    have hmax := (mem_LastEstablished hle).2
    simp only [gt_iff_lt, Bool.decide_and, Bool.and_eq_true, decide_eq_true_eq]
    refine ⟨by rw [hkl, hke], ?_, hsyn⟩
    rw [hmax, hkl, hke]
    exact hlt

theorem FirstSynSent_eq (wt : GoString → GoString) (T : List Data) :
    FirstSynSent wt T = firstRows (fun r => wt r.IDUnit)
      (fun a b => decide (a.DateTime ≤ b.DateTime)) (joinedSynSent wt T) :=
  rowNumber_first _ _ _

theorem LatestStatus_eq (wt : GoString → GoString) (T : List Data) :
    LatestStatus wt T = firstRows (fun r => wt r.IDUnit)
      (fun a b => decide (a.DateTime ≥ b.DateTime)) T :=
  rowNumber_first _ _ _

theorem mem_FirstSynSent {wt : GoString → GoString} {T : List Data} {f : Data}
    (h : f ∈ FirstSynSent wt T) :
    f ∈ joinedSynSent wt T ∧
      ∀ s ∈ joinedSynSent wt T, wt s.IDUnit = wt f.IDUnit → f.DateTime ≤ s.DateTime := by
  rw [FirstSynSent_eq] at h
  obtain ⟨h1, h2⟩ := mem_firstRows (fun r => wt r.IDUnit)
    (fun a b => by simpa using Nat.le_total a.DateTime b.DateTime)
    (fun a b c hab hbc => by simp at hab hbc ⊢; omega) h
  exact ⟨h1, fun s hs hk => by simpa using h2 s hs hk⟩

theorem mem_LatestStatus {wt : GoString → GoString} {T : List Data} {l : Data}
    (h : l ∈ LatestStatus wt T) :
    l ∈ T ∧ ∀ r ∈ T, wt r.IDUnit = wt l.IDUnit → r.DateTime ≤ l.DateTime := by
  rw [LatestStatus_eq] at h
  obtain ⟨h1, h2⟩ := mem_firstRows (fun r => wt r.IDUnit)
    (fun a b => by simpa using Nat.le_total b.DateTime a.DateTime)
    (fun a b c hab hbc => by simp at hab hbc ⊢; omega) h
  exact ⟨h1, fun s hs hk => by simpa using h2 s hs hk⟩

theorem mem_getQuery {wt : GoString → GoString} {T : List Data} {r : Data} :
    r ∈ getQuery wt T ↔
      r ∈ FirstSynSent wt T ∨
      (r ∈ LatestStatus wt T ∧ ∀ f ∈ FirstSynSent wt T, wt r.IDUnit ≠ wt f.IDUnit) := by
  unfold getQuery
  rw [(List.perm_insertionSort _ _).mem_iff, List.mem_dedup, List.mem_append, List.mem_filter]
  simp

theorem nodup_getQuery (wt : GoString → GoString) (T : List Data) :
    ((getQuery wt T).map (fun r => wt r.IDUnit)).Nodup := by
  have hF : ((FirstSynSent wt T).map (fun r => wt r.IDUnit)).Nodup := by
    rw [FirstSynSent_eq]; exact nodup_firstRows _ _ _
  have hL : ((LatestStatus wt T).map (fun r => wt r.IDUnit)).Nodup := by
    rw [LatestStatus_eq]; exact nodup_firstRows _ _ _
  have hall : ((FirstSynSent wt T ++ (LatestStatus wt T).filter (fun r =>
      ∀ f ∈ FirstSynSent wt T, wt r.IDUnit ≠ wt f.IDUnit)).map
      (fun r => wt r.IDUnit)).Nodup := by
    rw [List.map_append, List.nodup_append]
    refine ⟨hF, List.Nodup.sublist ((List.filter_sublist _).map _) hL, ?_⟩
    intro k hk1 hk2
    rw [List.mem_map] at hk1 hk2
    obtain ⟨f, hf, hfk⟩ := hk1
    obtain ⟨l, hl, hlk⟩ := hk2
    rw [List.mem_filter] at hl
    have := hl.2
    simp only [decide_eq_true_eq] at this
    exact this f hf (by rw [hlk, hfk])
  unfold getQuery
  refine ((List.perm_insertionSort _ _).map _).nodup_iff.mpr ?_
  rw [List.Nodup.dedup (List.Nodup.of_map _ hall)]
  exact hall

theorem filter_key_singleton (key : Data → GoString) :
    ∀ {l : List Data}, (l.map key).Nodup → ∀ {r : Data}, r ∈ l →
      l.filter (fun x => key x = key r) = [r] := by
  intro l
  induction l with
  | nil => intro _ r hr; simp at hr
  | cons a t ih =>
    intro hnd r hr
    rw [List.map_cons, List.nodup_cons] at hnd
    rcases List.mem_cons.mp hr with h1 | h1
    · subst h1
      have ht : t.filter (fun x => key x = key r) = [] := by
        rw [List.filter_eq_nil_iff]
        intro x hx hkx
        exact hnd.1 (List.mem_map.mpr ⟨x, hx, by simpa using hkx⟩)
      simp [List.filter_cons, ht]
    · have hne : key a ≠ key r := by
        intro hk
        exact hnd.1 (List.mem_map.mpr ⟨r, h1, hk.symm⟩)
      simp [List.filter_cons, hne, ih hnd.2 h1]

theorem history_congr {wt : GoString → GoString} (T : List Data) {a b : GoString}
    (h : wt a = wt b) : history wt T a = history wt T b := by
  simp [history, h]

theorem lastEstablished_congr {wt : GoString → GoString} (T : List Data) {a b : GoString}
    (h : wt a = wt b) : lastEstablished wt T a = lastEstablished wt T b := by
  simp [lastEstablished, history_congr T h]

theorem mem_history {wt : GoString → GoString} {T : List Data} {h : GoString} {r : Data} :
    r ∈ history wt T h ↔ r ∈ T ∧ wt r.IDUnit = wt h := by
  simp [history]

theorem returned_of_first {wt : GoString → GoString} {T : List Data} {h : GoString}
    {f : Data} (hf : f ∈ FirstSynSent wt T) (hk : wt f.IDUnit = wt h) :
    returned wt T h = [f] := by
  unfold returned
  rw [← hk]
  exact filter_key_singleton (fun r => wt r.IDUnit) (nodup_getQuery wt T)
    (mem_getQuery.mpr (Or.inl hf))

theorem returned_of_latest {wt : GoString → GoString} {T : List Data} {h : GoString}
    (hno : ∀ f ∈ FirstSynSent wt T, wt f.IDUnit ≠ wt h) (hne : history wt T h ≠ []) :
    ∃ l, returned wt T h = [l] ∧ l ∈ history wt T h ∧
      ∀ r ∈ history wt T h, r.DateTime ≤ l.DateTime := by
  obtain ⟨r0, tl, hr0⟩ := List.exists_cons_of_ne_nil hne
  have hr0m : r0 ∈ history wt T h := by rw [hr0]; simp
  rw [mem_history] at hr0m
  obtain ⟨l, hl, hkl⟩ := exists_firstRows (fun r => wt r.IDUnit)
    (fun a b => decide (a.DateTime ≥ b.DateTime)) hr0m.1
  rw [← LatestStatus_eq] at hl
  have hkl' : wt l.IDUnit = wt h := by rw [← hr0m.2]; exact hkl
  obtain ⟨hlT, hmax⟩ := mem_LatestStatus hl
  refine ⟨l, ?_, mem_history.mpr ⟨hlT, hkl'⟩, ?_⟩
  · unfold returned
    rw [← hkl']
    refine filter_key_singleton (fun r => wt r.IDUnit) (nodup_getQuery wt T)
      (mem_getQuery.mpr (Or.inr ⟨hl, ?_⟩))
    intro f hf hk
    exact hno f hf (by rw [← hk, hkl'])
  · intro r hr
    rw [mem_history] at hr
    exact hmax r hr.1 (by rw [hr.2, hkl'])

/-! ## The windowed query, host by host -/

theorem established_filter_eq {wt : GoString → GoString} {T : List Data}
    (hs : StoredAsPolled wt T) (h : GoString) :
    (T.filter (fun x => wt x.StatusID = wt "established".toList)).filter
        (fun x => wt x.IDUnit = wt h)
      = (history wt T h).filter (fun r => r.StatusID = ESTABLISHED) := by
  unfold history
  rw [List.filter_filter, List.filter_filter]
  apply List.filter_congr
  intro r hr
  have hd : decide (wt r.StatusID = wt "established".toList)
      = decide (r.StatusID = ESTABLISHED) := decide_eq_decide.mpr (hs r hr).1
  show (decide (wt r.IDUnit = wt h) && decide (wt r.StatusID = wt "established".toList))
    = (decide (r.StatusID = ESTABLISHED) && decide (wt r.IDUnit = wt h))
  rw [hd, Bool.and_comm]

theorem afterEstablished_iff {wt : GoString → GoString} {T : List Data} {h : GoString}
    {s : Data} (hE : ∃ e ∈ history wt T h, e.StatusID = ESTABLISHED) :
    lastEstablished wt T h < s.DateTime ↔ afterEstablished wt T h s := by
  unfold lastEstablished afterEstablished
  constructor
  · intro hlt e he hes
    exact lt_of_le_of_lt (le_maxDateTime (List.mem_filter.mpr ⟨he, by simpa using hes⟩)) hlt
  · intro hall
    obtain ⟨e, he, hes⟩ := hE
    apply maxDateTime_lt
    · intro hnil
      have : e ∈ (history wt T h).filter (fun r => r.StatusID = ESTABLISHED) :=
        List.mem_filter.mpr ⟨he, by simpa using hes⟩
      rw [hnil] at this
      simp at this
    · intro r hr
      rw [List.mem_filter] at hr
      exact hall r hr.1 (by simpa using hr.2)

theorem mem_joined_host {wt : GoString → GoString} {T : List Data}
    (hs : StoredAsPolled wt T) {r : Data} :
    r ∈ joinedSynSent wt T ↔
      r ∈ T ∧ r.StatusID = SYN_SENT ∧
      (∃ e ∈ history wt T r.IDUnit, e.StatusID = ESTABLISHED) ∧
      afterEstablished wt T r.IDUnit r := by
  rw [mem_joinedSynSent, established_filter_eq hs r.IDUnit]
  have hex : (∃ e ∈ T.filter (fun x => wt x.StatusID = wt "established".toList),
      wt e.IDUnit = wt r.IDUnit) ↔ ∃ e ∈ history wt T r.IDUnit, e.StatusID = ESTABLISHED := by
    constructor
    · rintro ⟨e, he, hk⟩
      rw [List.mem_filter] at he
      exact ⟨e, mem_history.mpr ⟨he.1, hk⟩, ((hs e he.1).1).mp (by simpa using he.2)⟩
    · rintro ⟨e, he, hes⟩
      rw [mem_history] at he
      exact ⟨e, List.mem_filter.mpr ⟨he.1, by simpa using ((hs e he.1).1).mpr hes⟩, he.2⟩
  constructor
  · rintro ⟨h1, h2, h3, h4⟩
    have h3' := hex.mp h3
    exact ⟨h1, ((hs r h1).2).mp h2, h3', (afterEstablished_iff h3').mp h4⟩
  · rintro ⟨h1, h2, h3, h4⟩
    exact ⟨h1, ((hs r h1).2).mpr h2, hex.mpr h3, (afterEstablished_iff h3).mpr h4⟩

theorem afterEstablished_congr {wt : GoString → GoString} (T : List Data) {a b : GoString}
    (h : wt a = wt b) (s : Data) : afterEstablished wt T a s ↔ afterEstablished wt T b s := by
  simp [afterEstablished, history_congr T h]

theorem returned_first_syn_sent {wt : GoString → GoString} {T : List Data} {h : GoString}
    (hs : StoredAsPolled wt T)
    (hE : ∃ e ∈ history wt T h, e.StatusID = ESTABLISHED)
    (hS : ∃ s ∈ history wt T h, s.StatusID = SYN_SENT ∧ afterEstablished wt T h s) :
    ∃ r, returned wt T h = [r] ∧ r ∈ history wt T h ∧ r.StatusID = SYN_SENT ∧
      afterEstablished wt T h r ∧
      ∀ s ∈ history wt T h, s.StatusID = SYN_SENT → afterEstablished wt T h s →
        r.DateTime ≤ s.DateTime := by
  have hjoin : ∀ s ∈ history wt T h, s.StatusID = SYN_SENT → afterEstablished wt T h s →
      s ∈ joinedSynSent wt T := by
    intro s hsm hsyn haft
    rw [mem_history] at hsm
    refine (mem_joined_host hs).mpr ⟨hsm.1, hsyn, ?_, (afterEstablished_congr T hsm.2 s).mpr haft⟩
    rw [history_congr T hsm.2]
    exact hE
  obtain ⟨s, hsm, hsyn, haft⟩ := hS
  obtain ⟨f, hf, hkf⟩ := exists_firstRows (fun r => wt r.IDUnit)
    (fun a b => decide (a.DateTime ≤ b.DateTime)) (hjoin s hsm hsyn haft)
  rw [← FirstSynSent_eq] at hf
  have hkf' : wt f.IDUnit = wt h := by rw [← (mem_history.mp hsm).2]; exact hkf
  obtain ⟨hfj, hmin⟩ := mem_FirstSynSent hf
  obtain ⟨hfT, hfs, _, hfa⟩ := (mem_joined_host hs).mp hfj
  refine ⟨f, returned_of_first hf hkf', mem_history.mpr ⟨hfT, hkf'⟩, hfs,
    (afterEstablished_congr T hkf' f).mp hfa, ?_⟩
  intro s' hs'm hs'syn hs'aft
  exact hmin s' (hjoin s' hs'm hs'syn hs'aft) (by rw [(mem_history.mp hs'm).2, hkf'])

theorem returned_latest {wt : GoString → GoString} {T : List Data} {h : GoString}
    (hs : StoredAsPolled wt T) (hne : history wt T h ≠ [])
    (hno : ∀ s ∈ history wt T h, s.StatusID = SYN_SENT →
      (∃ e ∈ history wt T h, e.StatusID = ESTABLISHED) → ¬ afterEstablished wt T h s) :
    ∃ r, returned wt T h = [r] ∧ r ∈ history wt T h ∧
      ∀ r' ∈ history wt T h, r'.DateTime ≤ r.DateTime := by
  apply returned_of_latest _ hne
  intro f hf hkf
  obtain ⟨hfT, hfs, hfe, hfa⟩ := (mem_joined_host hs).mp (mem_FirstSynSent hf).1
  rw [history_congr T hkf] at hfe
  exact hno f (mem_history.mpr ⟨hfT, hkf⟩) hfs hfe ((afterEstablished_congr T hkf f).mp hfa)

theorem getQuery_subset {wt : GoString → GoString} {T : List Data} {r : Data}
    (h : r ∈ getQuery wt T) : r ∈ T := by
  rcases mem_getQuery.mp h with h1 | h1
  · exact (mem_joinedSynSent.mp (mem_FirstSynSent h1).1).1
  · exact (mem_LatestStatus h1.1).1

theorem getQuery_eq_returned {wt : GoString → GoString} {T : List Data} {h : GoString}
    (hall : ∀ r ∈ T, wt r.IDUnit = wt h) : getQuery wt T = returned wt T h := by
  unfold returned
  symm
  rw [List.filter_eq_self]
  intro r hr
  simpa using hall r (getQuery_subset hr)

theorem history_eq_self {wt : GoString → GoString} {T : List Data} {h : GoString}
    (hall : ∀ r ∈ T, wt r.IDUnit = wt h) : history wt T h = T := by
  unfold history
  rw [List.filter_eq_self]
  intro r hr
  simpa using hall r hr

/-! ## The windowed status query: the claims -/

theorem syn_sent_ne_established : SYN_SENT ≠ ESTABLISHED := by decide

/-- C3: in a table whose states are spelled as the poller stores them, a host with
an ESTABLISHED observation and a SYN_SENT observation strictly later than all its
ESTABLISHED ones gets exactly one row, a SYN_SENT observation of the host that is
strictly later than all its ESTABLISHED ones and of minimum timestamp among such
rows; the histories [(t1,ESTABLISHED),(t2,SYN_SENT)] and
[(t1,ESTABLISHED),(t2,SYN_SENT),(t3,SYN_SENT)] with t1 < t2 < t3 return the t2 row. -/
theorem getQuery_first_syn_sent_after_established (wt : GoString → GoString) :
    (∀ (T : List Data) (h : GoString), StoredAsPolled wt T →
      (∃ e ∈ history wt T h, e.StatusID = ESTABLISHED) →
      (∃ s ∈ history wt T h, s.StatusID = SYN_SENT ∧ afterEstablished wt T h s) →
      ∃ r, returned wt T h = [r] ∧ r ∈ history wt T h ∧ r.StatusID = SYN_SENT ∧
        afterEstablished wt T h r ∧
        ∀ s ∈ history wt T h, s.StatusID = SYN_SENT → afterEstablished wt T h s →
          r.DateTime ≤ s.DateTime) ∧
    (∀ e s : Data, StoredAsPolled wt [e, s] → wt e.IDUnit = wt s.IDUnit →
      e.StatusID = ESTABLISHED → s.StatusID = SYN_SENT → e.DateTime < s.DateTime →
      getQuery wt [e, s] = [s]) ∧
    (∀ e s s' : Data, StoredAsPolled wt [e, s, s'] → wt e.IDUnit = wt s.IDUnit →
      wt s'.IDUnit = wt s.IDUnit → e.StatusID = ESTABLISHED → s.StatusID = SYN_SENT →
      s'.StatusID = SYN_SENT → e.DateTime < s.DateTime → s.DateTime < s'.DateTime →
      getQuery wt [e, s, s'] = [s]) := by
  refine ⟨fun T h hs hE hS => returned_first_syn_sent hs hE hS, ?_, ?_⟩
  · intro e s hs hk he hsy hlt
    have hall : ∀ r ∈ [e, s], wt r.IDUnit = wt s.IDUnit := by
      intro r hr
      simp only [List.mem_cons, List.mem_singleton, List.not_mem_nil, or_false] at hr
      rcases hr with h1 | h1 <;> subst h1 <;> simp [hk]
    have hhist := history_eq_self hall
    obtain ⟨r, hr, hrm, hrs, -, -⟩ := returned_first_syn_sent (h := s.IDUnit) hs
      (by rw [hhist]; exact ⟨e, by simp, he⟩)
      (by
        rw [hhist]
        refine ⟨s, by simp, hsy, ?_⟩
        unfold afterEstablished
        rw [hhist]
        intro x hx hxe
        simp only [List.mem_cons, List.mem_singleton, List.not_mem_nil, or_false] at hx
        rcases hx with h1 | h1
        · subst h1; exact hlt
        · subst h1; rw [hsy] at hxe; exact absurd hxe syn_sent_ne_established)
    rw [getQuery_eq_returned hall, hr]
    rw [hhist] at hrm
    simp only [List.mem_cons, List.mem_singleton, List.not_mem_nil, or_false] at hrm
    rcases hrm with h1 | h1
    · subst h1; rw [he] at hrs; exact absurd hrs.symm syn_sent_ne_established
    · rw [h1]
  · intro e s s' hs hk hk' he hsy hsy' hlt hlt'
    have hall : ∀ r ∈ [e, s, s'], wt r.IDUnit = wt s.IDUnit := by
      intro r hr
      simp only [List.mem_cons, List.mem_singleton, List.not_mem_nil, or_false] at hr
      rcases hr with h1 | h1 | h1 <;> subst h1 <;> simp [hk, hk']
    have hhist := history_eq_self hall
    have haft : afterEstablished wt [e, s, s'] s.IDUnit s := by
      unfold afterEstablished
      rw [hhist]
      intro x hx hxe
      simp only [List.mem_cons, List.mem_singleton, List.not_mem_nil, or_false] at hx
      rcases hx with h1 | h1 | h1
      · subst h1; exact hlt
      · subst h1; rw [hsy] at hxe; exact absurd hxe syn_sent_ne_established
      · subst h1; rw [hsy'] at hxe; exact absurd hxe syn_sent_ne_established
    obtain ⟨r, hr, hrm, hrs, -, hmin⟩ := returned_first_syn_sent (h := s.IDUnit) hs
      (by rw [hhist]; exact ⟨e, by simp, he⟩)
      (by rw [hhist]; exact ⟨s, by simp, hsy, haft⟩)
    have hle := hmin s (by rw [hhist]; simp) hsy haft
    rw [getQuery_eq_returned hall, hr]
    rw [hhist] at hrm
    simp only [List.mem_cons, List.mem_singleton, List.not_mem_nil, or_false] at hrm
    rcases hrm with h1 | h1 | h1
    · subst h1; rw [he] at hrs; exact absurd hrs.symm syn_sent_ne_established
    · rw [h1]
    · subst h1; omega

/-- C3, on a table where host A has observations (10, ESTABLISHED), (20, SYN_SENT),
(30, SYN_SENT) under a case-insensitive collation: the row of time 20 is returned. -/
theorem getQuery_first_syn_sent_after_established_witness :
    returned foldCase sampleReconnect "A".toList = [obs 2 "A" 20 "SYN_SENT"] ∧
    ∃ r, returned foldCase sampleReconnect "A".toList = [r] ∧
      r ∈ history foldCase sampleReconnect "A".toList ∧ r.StatusID = SYN_SENT ∧
      afterEstablished foldCase sampleReconnect "A".toList r ∧
      ∀ s ∈ history foldCase sampleReconnect "A".toList, s.StatusID = SYN_SENT →
        afterEstablished foldCase sampleReconnect "A".toList s → r.DateTime ≤ s.DateTime :=
  ⟨by decide,
    (getQuery_first_syn_sent_after_established foldCase).1 sampleReconnect "A".toList
      (by decide) (by decide) (by decide)⟩

/-- C4 as stated fails: host A has no ESTABLISHED observation and two SYN_SENT
observations (times 10 and 20), followed by a failed poll at time 30; the query
returns the row of time 30 for it, which is neither a SYN_SENT observation nor of
minimum timestamp among the SYN_SENT ones. -/
theorem getQuery_no_established_counterexample :
    StoredAsPolled foldCase sampleNeverEstablished ∧
    (∀ e ∈ history foldCase sampleNeverEstablished "A".toList, e.StatusID ≠ ESTABLISHED) ∧
    (∃ s ∈ history foldCase sampleNeverEstablished "A".toList, s.StatusID = SYN_SENT) ∧
    returned foldCase sampleNeverEstablished "A".toList = [obs 3 "A" 30 "Failed to Connect"] ∧
    ¬ (∀ r ∈ returned foldCase sampleNeverEstablished "A".toList,
        r.StatusID = SYN_SENT ∧
        ∀ s ∈ history foldCase sampleNeverEstablished "A".toList,
          s.StatusID = SYN_SENT → r.DateTime ≤ s.DateTime) := by
  decide

/-- C4, amended: in a table whose states are spelled as the poller stores them, a
host with no ESTABLISHED observation and at least one SYN_SENT observation gets
exactly one row, an observation of the host of maximum timestamp over its whole
history, whatever its state. -/
theorem getQuery_no_established_latest (wt : GoString → GoString) (T : List Data)
    (h : GoString) (hs : StoredAsPolled wt T)
    (hE : ∀ e ∈ history wt T h, e.StatusID ≠ ESTABLISHED)
    (hS : ∃ s ∈ history wt T h, s.StatusID = SYN_SENT) :
    ∃ r, returned wt T h = [r] ∧ r ∈ history wt T h ∧
      ∀ r' ∈ history wt T h, r'.DateTime ≤ r.DateTime := by
  apply returned_latest hs
  · obtain ⟨s, hsm, _⟩ := hS
    exact List.ne_nil_of_mem hsm
  · intro s _ _ hex
    obtain ⟨e, he, hes⟩ := hex
    exact absurd hes (hE e he)

/-- C4 amended, on host A of the table of the counterexample. -/
theorem getQuery_no_established_latest_witness :
    ∃ r, returned foldCase sampleNeverEstablished "A".toList = [r] ∧
      r ∈ history foldCase sampleNeverEstablished "A".toList ∧
      ∀ r' ∈ history foldCase sampleNeverEstablished "A".toList, r'.DateTime ≤ r.DateTime :=
  getQuery_no_established_latest foldCase sampleNeverEstablished "A".toList
    (by decide) (by decide) (by decide)

/-- C5: in a table whose states are spelled as the poller stores them, a host with
an ESTABLISHED observation and no SYN_SENT observation strictly later than all its
ESTABLISHED ones gets exactly one row, an observation of the host of maximum
timestamp over its whole history; the history [(t1,SYN_SENT),(t2,ESTABLISHED)]
with t1 < t2 returns the t2 row. -/
theorem getQuery_latest_when_no_later_syn_sent (wt : GoString → GoString) :
    (∀ (T : List Data) (h : GoString), StoredAsPolled wt T →
      (∃ e ∈ history wt T h, e.StatusID = ESTABLISHED) →
      (∀ s ∈ history wt T h, s.StatusID = SYN_SENT → ¬ afterEstablished wt T h s) →
      ∃ r, returned wt T h = [r] ∧ r ∈ history wt T h ∧
        ∀ r' ∈ history wt T h, r'.DateTime ≤ r.DateTime) ∧
    (∀ s e : Data, StoredAsPolled wt [s, e] → wt s.IDUnit = wt e.IDUnit →
      s.StatusID = SYN_SENT → e.StatusID = ESTABLISHED → s.DateTime < e.DateTime →
      getQuery wt [s, e] = [e]) := by
  constructor
  · intro T h hs hE hS
    apply returned_latest hs
    · obtain ⟨e, he, _⟩ := hE
      exact List.ne_nil_of_mem he
    · intro s hsm hsy _
      exact hS s hsm hsy
  · intro s e hs hk hsy he hlt
    have hall : ∀ r ∈ [s, e], wt r.IDUnit = wt e.IDUnit := by
      intro r hr
      simp only [List.mem_cons, List.mem_singleton, List.not_mem_nil, or_false] at hr
      rcases hr with h1 | h1 <;> subst h1 <;> simp [hk]
    have hhist := history_eq_self hall
    obtain ⟨r, hr, hrm, hmax⟩ := returned_latest (h := e.IDUnit) hs
      (by rw [hhist]; simp)
      (by
        rw [hhist]
        intro x hx hxs _ haft
        unfold afterEstablished at haft
        rw [hhist] at haft
        simp only [List.mem_cons, List.mem_singleton, List.not_mem_nil, or_false] at hx
        rcases hx with h1 | h1
        · subst h1
          have := haft e (by simp) he
          omega
        · subst h1; rw [he] at hxs; exact absurd hxs.symm syn_sent_ne_established)
    rw [getQuery_eq_returned hall, hr]
    have hle := hmax e (by rw [hhist]; simp)
    rw [hhist] at hrm
    simp only [List.mem_cons, List.mem_singleton, List.not_mem_nil, or_false] at hrm
    rcases hrm with h1 | h1
    · subst h1; omega
    · rw [h1]

/-- C5, on a table where host A has observations (10, SYN_SENT), (20, ESTABLISHED)
and (30, "") under a case-insensitive collation: the row of time 30 is returned. -/
theorem getQuery_latest_when_no_later_syn_sent_witness :
    returned foldCase sampleRecovered "A".toList = [obs 3 "A" 30 ""] ∧
    ∃ r, returned foldCase sampleRecovered "A".toList = [r] ∧
      r ∈ history foldCase sampleRecovered "A".toList ∧
      ∀ r' ∈ history foldCase sampleRecovered "A".toList, r'.DateTime ≤ r.DateTime :=
  ⟨by decide,
    (getQuery_latest_when_no_later_syn_sent foldCase).1 sampleRecovered "A".toList
      (by decide) (by decide) (by decide)⟩

theorem length_filter_key_le_one (key : Data → GoString) {l : List Data}
    (hnd : (l.map key).Nodup) (k : GoString) :
    (l.filter (fun x => key x = k)).length ≤ 1 := by
  cases hf : l.filter (fun x => key x = k) with
  | nil => simp
  | cons r tl =>
    have hr : r ∈ l.filter (fun x => key x = k) := by rw [hf]; simp
    rw [List.mem_filter] at hr
    have hk : key r = k := by simpa using hr.2
    have := filter_key_singleton key hnd hr.1
    rw [hk, hf] at this
    rw [this]
    simp

/-- C6: for every content of the table and every collation, the result of the
windowed query has at most one row per host alias (as the store identifies
aliases, hence also per exact alias), exactly one row for every alias with at
least one observation, and only rows of the table. -/
theorem getQuery_one_row_per_alias (wt : GoString → GoString) (T : List Data) :
    (∀ h : GoString, (returned wt T h).length ≤ 1) ∧
    (∀ a : GoString, ((getQuery wt T).filter (fun r => r.IDUnit = a)).length ≤ 1) ∧
    (∀ h : GoString, history wt T h ≠ [] → ∃ r, returned wt T h = [r] ∧ r ∈ history wt T h) ∧
    (∀ r ∈ getQuery wt T, r ∈ T) := by
  refine ⟨?_, ?_, ?_, fun r hr => getQuery_subset hr⟩
  · intro h
    exact length_filter_key_le_one (fun r => wt r.IDUnit) (nodup_getQuery wt T) (wt h)
  · intro a
    have hsub : ((getQuery wt T).filter (fun r => decide (r.IDUnit = a))).Sublist
        ((getQuery wt T).filter (fun r => decide (wt r.IDUnit = wt a))) := by
      apply List.monotone_filter_right
      intro r hr
      have : r.IDUnit = a := by simpa using hr
      simp [this]
    exact le_trans hsub.length_le
      (length_filter_key_le_one (fun r => wt r.IDUnit) (nodup_getQuery wt T) (wt a))
  · intro h hne
    by_cases hF : ∃ f ∈ FirstSynSent wt T, wt f.IDUnit = wt h
    · obtain ⟨f, hf, hk⟩ := hF
      exact ⟨f, returned_of_first hf hk,
        mem_history.mpr ⟨(mem_joinedSynSent.mp (mem_FirstSynSent hf).1).1, hk⟩⟩
    · obtain ⟨l, hl, hlm, _⟩ := returned_of_latest
        (fun f hf hk => hF ⟨f, hf, hk⟩) hne
      exact ⟨l, hl, hlm⟩

/-! ## The simple read handler -/

namespace Restfullapi

theorem foldl_scanRow (rows : List Data) :
    ∀ st : List Data × List GoString,
      (rows.foldl scanRow st).1 = st.1 ++ (kept st.2 rows).map relabel := by
  induction rows with
  | nil => intro st; simp [kept]
  | cons d ds ih =>
    intro st
    rw [List.foldl_cons, ih]
    by_cases hc : d.IDUnit ∉ st.2 ∧ admitted d
    · have hc' : d.IDUnit ∉ st.2 ∧
          (d.StatusID = "SYN_SENT".toList ∨ d.StatusID = "ESTABLISHED".toList ∨
            d.StatusID = "Failed to Connect".toList ∨ d.StatusID = []) := hc
      rw [scanRow, if_pos hc', kept, if_pos hc]
      simp [relabel]
    · have hc' : ¬ (d.IDUnit ∉ st.2 ∧
          (d.StatusID = "SYN_SENT".toList ∨ d.StatusID = "ESTABLISHED".toList ∨
            d.StatusID = "Failed to Connect".toList ∨ d.StatusID = [])) := hc
      rw [scanRow, if_neg hc', kept, if_neg hc]

theorem scanRows_eq (rows : List Data) : scanRows rows = (kept [] rows).map relabel := by
  unfold scanRows
  rw [foldl_scanRow]
  rfl

theorem kept_sublist (rows : List Data) : ∀ seen, (kept seen rows).Sublist rows := by
  induction rows with
  | nil => intro seen; simp [kept]
  | cons d ds ih =>
    intro seen
    rw [kept]
    split
    · exact (ih _).cons₂ d
    · exact (ih _).cons d

theorem firstAdmitted_cons_skip {a : Data} {t : List Data} {u : GoString}
    (h : ¬ (a.IDUnit = u ∧ admitted a)) : firstAdmitted (a :: t) u = firstAdmitted t u := by
  unfold firstAdmitted
  rw [List.filter_cons, if_neg (by simpa using h)]

theorem firstAdmitted_cons_take {a : Data} {t : List Data} {u : GoString}
    (h : a.IDUnit = u ∧ admitted a) : firstAdmitted (a :: t) u = some a := by
  unfold firstAdmitted
  rw [List.filter_cons, if_pos (by simpa using h)]
  rfl

theorem mem_kept (rows : List Data) :
    ∀ seen d, d ∈ kept seen rows →
      d.IDUnit ∉ seen ∧ admitted d ∧ firstAdmitted rows d.IDUnit = some d := by
  induction rows with
  | nil => intro seen d h; simp [kept] at h
  | cons a t ih =>
    intro seen d h
    rw [kept] at h
    by_cases hc : a.IDUnit ∉ seen ∧ admitted a
    · rw [if_pos hc] at h
      rcases List.mem_cons.mp h with h1 | h1
      · subst h1
        exact ⟨hc.1, hc.2, firstAdmitted_cons_take ⟨rfl, hc.2⟩⟩
      · obtain ⟨h2, h3, h4⟩ := ih _ d h1
        have hne : a.IDUnit ≠ d.IDUnit := fun he => h2 (by simp [he])
        refine ⟨fun hm => h2 (List.mem_cons_of_mem _ hm), h3, ?_⟩
        rw [firstAdmitted_cons_skip (fun hh => hne hh.1)]
        exact h4
    · rw [if_neg hc] at h
      obtain ⟨h2, h3, h4⟩ := ih _ d h
      refine ⟨h2, h3, ?_⟩
      have hskip : ¬ (a.IDUnit = d.IDUnit ∧ admitted a) := by
        rintro ⟨he, ha⟩
        exact hc ⟨he ▸ h2, ha⟩
      rw [firstAdmitted_cons_skip hskip]
      exact h4

theorem nodup_kept (rows : List Data) :
    ∀ seen, ((kept seen rows).map (fun d => d.IDUnit)).Nodup := by
  induction rows with
  | nil => intro seen; simp [kept]
  | cons a t ih =>
    intro seen
    rw [kept]
    split
    · rw [List.map_cons, List.nodup_cons]
      refine ⟨?_, ih _⟩
      intro hm
      rw [List.mem_map] at hm
      obtain ⟨d, hd, hk⟩ := hm
      exact (mem_kept t _ d hd).1 (by simp [hk])
    · exact ih _

theorem kept_of_firstAdmitted (rows : List Data) :
    ∀ seen u d, firstAdmitted rows u = some d → u ∉ seen → d ∈ kept seen rows := by
  induction rows with
  | nil => intro seen u d h; simp [firstAdmitted] at h
  | cons a t ih =>
    intro seen u d h hu
    rw [kept]
    by_cases hau : a.IDUnit = u ∧ admitted a
    · have hd : a = d := by
        rw [firstAdmitted_cons_take hau] at h
        exact Option.some.inj h
      subst hd
      rw [if_pos ⟨hau.1 ▸ hu, hau.2⟩]
      simp
    · have ht : firstAdmitted t u = some d := by
        rw [firstAdmitted_cons_skip hau] at h
        exact h
      by_cases hc : a.IDUnit ∉ seen ∧ admitted a
      · rw [if_pos hc]
        refine List.mem_cons_of_mem _ (ih _ u d ht ?_)
        intro hm
        rcases List.mem_cons.mp hm with h1 | h1
        · exact hau ⟨h1.symm, hc.2⟩
        · exact hu h1
      · rw [if_neg hc]
        exact ih _ u d ht hu

theorem relabel_unit (d : Data) : (relabel d).IDUnit = d.IDUnit := by
  unfold relabel; split <;> rfl

end Restfullapi

/-- C7: for every list of delivered rows, the response of the simple handler has at
most one row per id_unit; its rows are, in the order of the input, the relabelled
first rows of each id_unit among the rows with an admitted state; every id_unit
with such a row appears; when the rows come in descending date_time order the kept
row is a most recent admitted row of its id_unit; and the handler runs this scan
on the rows of its query, which come in descending date_time order. -/
theorem Restfullapi.scanRows_first_row_per_unit (rows : List Data) :
    ((Restfullapi.scanRows rows).map (fun d => d.IDUnit)).Nodup ∧
    (∃ keptRows : List Data, keptRows.Sublist rows ∧
      Restfullapi.scanRows rows = keptRows.map Restfullapi.relabel ∧
      ∀ d ∈ keptRows, Restfullapi.firstAdmitted rows d.IDUnit = some d) ∧
    (∀ u d, Restfullapi.firstAdmitted rows u = some d →
      Restfullapi.relabel d ∈ Restfullapi.scanRows rows) ∧
    (rows.Pairwise (fun a b => a.DateTime ≥ b.DateTime) →
      ∀ u d, Restfullapi.firstAdmitted rows u = some d →
        ∀ d' ∈ rows, d'.IDUnit = u → Restfullapi.admitted d' → d'.DateTime ≤ d.DateTime) ∧
    (∀ (wt : GoString → GoString) (store : List Data),
      (Restfullapi.getData wt store).1 = Restfullapi.scanRows (Restfullapi.query wt store) ∧
      (Restfullapi.query wt store).Pairwise (fun a b => a.DateTime ≥ b.DateTime)) := by
  refine ⟨?_, ?_, ?_, ?_, ?_⟩
  · rw [Restfullapi.scanRows_eq, List.map_map]
    have : ((fun d : Data => d.IDUnit) ∘ Restfullapi.relabel) = fun d => d.IDUnit := by
      funext d; exact Restfullapi.relabel_unit d
    rw [this]
    exact Restfullapi.nodup_kept rows []
  · exact ⟨Restfullapi.kept [] rows, Restfullapi.kept_sublist rows [],
      Restfullapi.scanRows_eq rows, fun d hd => (Restfullapi.mem_kept rows [] d hd).2.2⟩
  · intro u d h
    rw [Restfullapi.scanRows_eq]
    exact List.mem_map_of_mem _ (Restfullapi.kept_of_firstAdmitted rows [] u d h (by simp))
  · intro hsorted u d h d' hd' hu ha
    unfold Restfullapi.firstAdmitted at h
    obtain ⟨tl, htl⟩ := List.head?_eq_some_iff.mp h
    have hmem : d' ∈ rows.filter (fun r => r.IDUnit = u ∧ Restfullapi.admitted r) :=
      List.mem_filter.mpr ⟨hd', by simpa using ⟨hu, ha⟩⟩
    have hpw := hsorted.sublist (List.filter_sublist (p := fun r =>
      decide (r.IDUnit = u ∧ Restfullapi.admitted r)) rows)
    rw [htl] at hmem hpw
    rcases List.mem_cons.mp hmem with h1 | h1
    · rw [h1]
    · exact (List.pairwise_cons.mp hpw).1 d' h1
  · intro wt store
    refine ⟨rfl, ?_⟩
    haveI : IsTotal Data (fun a b => a.DateTime ≥ b.DateTime) :=
      ⟨fun a b => Nat.le_total b.DateTime a.DateTime⟩
    haveI : IsTrans Data (fun a b => a.DateTime ≥ b.DateTime) :=
      ⟨fun a b c hab hbc => Nat.le_trans hbc hab⟩
    unfold Restfullapi.query
    exact List.sorted_insertionSort (fun (a b : Data) => a.DateTime ≥ b.DateTime) _

theorem Restfullapi.mem_query {wt : GoString → GoString} {store : List Data} {d : Data}
    (h : d ∈ Restfullapi.query wt store) : d ∈ store := by
  unfold Restfullapi.query at h
  rw [(List.perm_insertionSort _ _).mem_iff] at h
  exact (List.mem_filter.mp h).1

theorem Restfullapi.mem_of_firstAdmitted {rows : List Data} {u : GoString} {d : Data}
    (h : Restfullapi.firstAdmitted rows u = some d) : d ∈ rows := by
  unfold Restfullapi.firstAdmitted at h
  exact (List.mem_filter.mp (List.mem_of_mem_head? (Option.mem_def.mpr h))).1

theorem Restfullapi.mem_kept_iff (rows : List Data) (d : Data) :
    d ∈ Restfullapi.kept [] rows ↔ ∃ u, Restfullapi.firstAdmitted rows u = some d := by
  constructor
  · intro h
    exact ⟨d.IDUnit, (Restfullapi.mem_kept rows [] d h).2.2⟩
  · rintro ⟨u, h⟩
    exact Restfullapi.kept_of_firstAdmitted rows [] u d h (by simp)

/-- C8: the response of the simple handler is the list, in the order of the query,
of the first admitted rows of each id_unit among the rows of its query, each
relabelled. A first admitted row whose stored status is empty is returned with
status "Netstat not detect Master" and its five other fields unchanged; a first
admitted row with a non-empty status is returned with all six fields unchanged;
every returned row is one of these, so no returned row has an empty status. The
store after the request is the store before it, so a row stored with an empty
status is still stored with it, whereas the insert of the poller changes the
store. -/
theorem Restfullapi.getData_relabels_empty_status (wt : GoString → GoString)
    (store : List Data) :
    (∃ keptRows : List Data, keptRows.Sublist (Restfullapi.query wt store) ∧
      (∀ d, d ∈ keptRows ↔ ∃ u, Restfullapi.firstAdmitted (Restfullapi.query wt store) u = some d) ∧
      (Restfullapi.getData wt store).1 = keptRows.map Restfullapi.relabel) ∧
    (∀ u d, Restfullapi.firstAdmitted (Restfullapi.query wt store) u = some d →
      d.StatusID = [] →
      ({ ID := d.ID, DateTime := d.DateTime, IDUnit := d.IDUnit, IPUnit := d.IPUnit,
         ForeignAddr := d.ForeignAddr, StatusID := "Netstat not detect Master".toList } : Data)
        ∈ (Restfullapi.getData wt store).1) ∧
    (∀ u d, Restfullapi.firstAdmitted (Restfullapi.query wt store) u = some d →
      d.StatusID ≠ [] → d ∈ (Restfullapi.getData wt store).1) ∧
    (∀ o ∈ (Restfullapi.getData wt store).1,
      ∃ d, Restfullapi.firstAdmitted (Restfullapi.query wt store) o.IDUnit = some d ∧
        d ∈ store ∧
        o.ID = d.ID ∧ o.DateTime = d.DateTime ∧ o.IDUnit = d.IDUnit ∧ o.IPUnit = d.IPUnit ∧
        o.ForeignAddr = d.ForeignAddr ∧
        ((d.StatusID = [] ∧ o.StatusID = "Netstat not detect Master".toList) ∨
          (d.StatusID ≠ [] ∧ o.StatusID = d.StatusID))) ∧
    (∀ d : Data, d.StatusID = [] →
      (Restfullapi.relabel d).StatusID = "Netstat not detect Master".toList ∧
      (Restfullapi.relabel d).ID = d.ID ∧ (Restfullapi.relabel d).DateTime = d.DateTime ∧
      (Restfullapi.relabel d).IDUnit = d.IDUnit ∧ (Restfullapi.relabel d).IPUnit = d.IPUnit ∧
      (Restfullapi.relabel d).ForeignAddr = d.ForeignAddr) ∧
    (∀ d : Data, d.StatusID ≠ [] → Restfullapi.relabel d = d) ∧
    (∀ o ∈ (Restfullapi.getData wt store).1, o.StatusID ≠ []) ∧
    (Restfullapi.getData wt store).2 = store ∧
    (∀ d ∈ store, d.StatusID = [] → d ∈ (Restfullapi.getData wt store).2) ∧
    (∀ row : Data, ((Restfullapi.Statement.insert row).run store).2 ≠ store) := by
  have hget : (Restfullapi.getData wt store).1
      = (Restfullapi.kept [] (Restfullapi.query wt store)).map Restfullapi.relabel :=
    Restfullapi.scanRows_eq _
  have hkept : ∀ u d, Restfullapi.firstAdmitted (Restfullapi.query wt store) u = some d →
      Restfullapi.relabel d ∈ (Restfullapi.getData wt store).1 := by
    intro u d h
    rw [hget]
    exact List.mem_map_of_mem _ ((Restfullapi.mem_kept_iff _ d).mpr ⟨u, h⟩)
  refine ⟨⟨_, Restfullapi.kept_sublist _ [], Restfullapi.mem_kept_iff _, hget⟩,
    ?_, ?_, ?_, ?_, ?_, ?_, rfl, fun d hd _ => hd, ?_⟩
  · intro u d h hd
    have := hkept u d h
    simpa [Restfullapi.relabel, hd] using this
  · intro u d h hd
    have := hkept u d h
    simpa [Restfullapi.relabel, hd] using this
  · intro o ho
    rw [hget, List.mem_map] at ho
    obtain ⟨d, hd, hdo⟩ := ho
    have hfirst := (Restfullapi.mem_kept _ [] d hd).2.2
    have hmem := Restfullapi.mem_query (Restfullapi.mem_of_firstAdmitted hfirst)
    subst hdo
    rw [Restfullapi.relabel_unit]
    refine ⟨d, hfirst, hmem, ?_⟩
    by_cases hs : d.StatusID = []
    · simp [Restfullapi.relabel, hs]
    · simp [Restfullapi.relabel, hs]
  · intro d hd
    simp [Restfullapi.relabel, hd]
  · intro d hd
    simp [Restfullapi.relabel, hd]
  · intro o ho
    rw [hget, List.mem_map] at ho
    obtain ⟨d, _, hdo⟩ := ho
    subst hdo
    unfold Restfullapi.relabel
    split
    · simp
    · assumption
  · intro row h
    have hlen := congrArg List.length h
    simp [Restfullapi.Statement.run] at hlen

/-- C8, on a store where the latest admitted row of host A has an empty status and
the row of host B has status "ESTABLISHED": the response holds the row of A with
the marker and the row of B unchanged, and the store keeps the empty status. -/
theorem Restfullapi.getData_relabels_empty_status_witness :
    Restfullapi.firstAdmitted (Restfullapi.query foldCase sampleRecovered) "A".toList
      = some (obs 3 "A" 30 "") ∧
    obs 3 "A" 30 "Netstat not detect Master" ∈ (Restfullapi.getData foldCase sampleRecovered).1 ∧
    (Restfullapi.getData foldCase sampleRecovered).1
      = [obs 3 "A" 30 "Netstat not detect Master", obs 4 "B" 7 "ESTABLISHED"] ∧
    obs 3 "A" 30 "" ∈ (Restfullapi.getData foldCase sampleRecovered).2 :=
  ⟨by decide,
    (Restfullapi.getData_relabels_empty_status foldCase sampleRecovered).2.1
      "A".toList (obs 3 "A" 30 "") (by decide) rfl,
    by decide,
    (Restfullapi.getData_relabels_empty_status foldCase sampleRecovered).2.2.2.2.2.2.2.2.1
      (obs 3 "A" 30 "") (by decide) rfl⟩

/-! ## The retry loop -/

theorem connectLoop_two (server : Server) (probe : Nat → ProbeOutcome) (n : Nat) :
    connectLoop server probe (n + 2) 0 0 =
      some (match probe 0 with
        | .output raw =>
          [Event.dial (server.IP.String ++ ":22".toList) (probe 0),
            Event.insert server (classify raw).1 (classify raw).2]
        | _ =>
          match probe 1 with
          | .output raw =>
            [Event.dial (server.IP.String ++ ":22".toList) (probe 0), Event.sleep,
              Event.dial (server.IP.String ++ ":22".toList) (probe 1),
              Event.insert server (classify raw).1 (classify raw).2]
          | _ =>
            [Event.dial (server.IP.String ++ ":22".toList) (probe 0), Event.sleep,
              Event.dial (server.IP.String ++ ":22".toList) (probe 1),
              Event.insert server [] (failureMarker (probe 1))]) := by
  cases h0 : probe 0 <;> cases h1 : probe 1 <;>
    simp [connectLoop, maxRetries, h0, h1, failureMarker]

theorem connectToServer_two (server : Server) (probe : Nat → ProbeOutcome)
    (hv : server.IP.Valid = true) (fuel : Nat) (hf : maxRetries ≤ fuel) :
    connectToServer server probe fuel = connectLoop server probe (fuel - 2 + 2) 0 0 := by
  have h2 : fuel - 2 + 2 = fuel := by unfold maxRetries at hf; omega
  rw [h2]
  simp [connectToServer, hv]

/-- C9: for a server with a valid address and every sequence of probe outcomes, the
call returns the same run for every fuel of at least `maxRetries` passes; the run
makes at most `maxRetries` = 2 dials, which meet the outcomes in order; every dial
but the last met a failure; and the run is either one dial followed by the insert,
or a failed dial, the sleep, a second dial and the insert. -/
theorem connectToServer_attempts_bounded (server : Server) (probe : Nat → ProbeOutcome)
    (hv : server.IP.Valid = true) :
    ∃ events : List Event,
      (∀ fuel, maxRetries ≤ fuel → connectToServer server probe fuel = some events) ∧
      (attempts events).length ≤ maxRetries ∧ maxRetries = 2 ∧
      attempts events = (List.range (attempts events).length).map probe ∧
      (∀ i, i + 1 < (attempts events).length → (probe i).isFailure = true) ∧
      (((probe 0).isFailure = false ∧ ∃ fa st, events =
          [Event.dial (server.IP.String ++ ":22".toList) (probe 0),
            Event.insert server fa st]) ∨
        ((probe 0).isFailure = true ∧ ∃ fa st, events =
          [Event.dial (server.IP.String ++ ":22".toList) (probe 0), Event.sleep,
            Event.dial (server.IP.String ++ ":22".toList) (probe 1),
            Event.insert server fa st])) := by
  refine ⟨_, fun fuel hf => by
    rw [connectToServer_two server probe hv fuel hf, connectLoop_two], ?_⟩
  have hr2 : List.range 2 = [0, 1] := rfl
  have hr1 : List.range 1 = [0] := rfl
  have hzero : ∀ i, i + 1 < 2 → (probe 0).isFailure = true → (probe i).isFailure = true := by
    intro i hi h
    have : i = 0 := by omega
    rw [this]; exact h
  cases h0 : probe 0 <;> cases h1 : probe 1 <;>
    simp [attempts, maxRetries, hr1, hr2, h0, h1] <;>
    first
      | rfl
      | (refine ⟨fun i hi => hzero i hi (by rw [h0]; rfl), ?_⟩; rfl)

/-- C9, on a server whose first dial fails and whose second pass returns output. -/
theorem connectToServer_attempts_bounded_witness :
    ∃ events : List Event,
      (∀ fuel, maxRetries ≤ fuel →
        connectToServer ⟨⟨"10.0.0.7".toList, true⟩, "A".toList⟩
          (fun k => if k = 0 then .dialFailed else .output scenarioLine) fuel = some events) ∧
      (attempts events).length ≤ maxRetries ∧ maxRetries = 2 ∧
      attempts events = (List.range (attempts events).length).map
        (fun k => if k = 0 then .dialFailed else .output scenarioLine) ∧
      (∀ i, i + 1 < (attempts events).length →
        (ProbeOutcome.isFailure ((fun k => if k = 0 then ProbeOutcome.dialFailed
          else ProbeOutcome.output scenarioLine) i)) = true) ∧
      (((ProbeOutcome.isFailure ((fun k => if k = 0 then ProbeOutcome.dialFailed
          else ProbeOutcome.output scenarioLine) 0)) = false ∧ ∃ fa st, events =
          [Event.dial ("10.0.0.7".toList ++ ":22".toList)
              ((fun k => if k = 0 then ProbeOutcome.dialFailed
                else ProbeOutcome.output scenarioLine) 0),
            Event.insert ⟨⟨"10.0.0.7".toList, true⟩, "A".toList⟩ fa st]) ∨
        ((ProbeOutcome.isFailure ((fun k => if k = 0 then ProbeOutcome.dialFailed
          else ProbeOutcome.output scenarioLine) 0)) = true ∧ ∃ fa st, events =
          [Event.dial ("10.0.0.7".toList ++ ":22".toList)
              ((fun k => if k = 0 then ProbeOutcome.dialFailed
                else ProbeOutcome.output scenarioLine) 0), Event.sleep,
            Event.dial ("10.0.0.7".toList ++ ":22".toList)
              ((fun k => if k = 0 then ProbeOutcome.dialFailed
                else ProbeOutcome.output scenarioLine) 1),
            Event.insert ⟨⟨"10.0.0.7".toList, true⟩, "A".toList⟩ fa st])) :=
  connectToServer_attempts_bounded ⟨⟨"10.0.0.7".toList, true⟩, "A".toList⟩
    (fun k => if k = 0 then .dialFailed else .output scenarioLine) rfl

/-- C10: for a server with a valid address, when the first `maxRetries` passes all
fail, the call makes `maxRetries` dials and records exactly one observation, with
an empty peer address and the marker of the last pass: "Failed to Connect" when it
failed at dial or at session creation, "Failed to Execute Command" when it failed at
command execution, whatever the earlier failures were. -/
theorem connectToServer_exhausted_records_last_failure (server : Server)
    (probe : Nat → ProbeOutcome) (hv : server.IP.Valid = true)
    (hfail : ∀ i, i < maxRetries → (probe i).isFailure = true) :
    ∃ events : List Event,
      (∀ fuel, maxRetries ≤ fuel → connectToServer server probe fuel = some events) ∧
      (attempts events).length = maxRetries ∧
      recorded events = [(server, [], failureMarker (probe (maxRetries - 1)))] ∧
      (probe (maxRetries - 1) = .dialFailed ∨ probe (maxRetries - 1) = .sessionFailed →
        recorded events = [(server, [], "Failed to Connect".toList)]) ∧
      (probe (maxRetries - 1) = .commandFailed →
        recorded events = [(server, [], "Failed to Execute Command".toList)]) := by
  refine ⟨_, fun fuel hf => by
    rw [connectToServer_two server probe hv fuel hf, connectLoop_two], ?_⟩
  have f0 := hfail 0 (by decide)
  have f1 := hfail 1 (by decide)
  have hm : maxRetries - 1 = 1 := rfl
  rw [hm]
  cases h0 : probe 0 <;> cases h1 : probe 1 <;>
    simp [attempts, recorded, maxRetries, failureMarker, ProbeOutcome.isFailure, h0, h1]
      at f0 f1 ⊢

/-- C10, on a server whose first pass fails at command execution and whose second
pass fails at dial: the marker recorded is "Failed to Connect". -/
theorem connectToServer_exhausted_records_last_failure_witness :
    ∃ events : List Event,
      (∀ fuel, maxRetries ≤ fuel →
        connectToServer ⟨⟨"10.0.0.7".toList, true⟩, "A".toList⟩
          (fun k => if k = 0 then .commandFailed else .dialFailed) fuel = some events) ∧
      recorded events =
        [(⟨⟨"10.0.0.7".toList, true⟩, "A".toList⟩, [], "Failed to Connect".toList)] := by
  obtain ⟨events, h1, _, _, h4, _⟩ := connectToServer_exhausted_records_last_failure
    ⟨⟨"10.0.0.7".toList, true⟩, "A".toList⟩
    (fun k => if k = 0 then .commandFailed else .dialFailed) rfl
    (by intro i _; by_cases h : i = 0 <;> simp [h, ProbeOutcome.isFailure])
  exact ⟨events, h1, h4 (Or.inl rfl)⟩

theorem connectToServer_invalid (server : Server) (probe : Nat → ProbeOutcome)
    (hv : server.IP.Valid = false) (fuel : Nat) :
    connectToServer server probe fuel = some [Event.insert server [] "Invalid IP".toList] := by
  simp [connectToServer, hv]

theorem recorded_connectLoop_two (server : Server) (probe : Nat → ProbeOutcome) (n : Nat) :
    ∃ events fa st, connectLoop server probe (n + 2) 0 0 = some events ∧
      recorded events = [(server, fa, st)] := by
  rw [connectLoop_two]
  cases h0 : probe 0 <;> cases h1 : probe 1 <;> simp [recorded] <;> exact ⟨_, _, rfl⟩

/-- C11: for every server, with a valid address or not, and every sequence of probe
outcomes, the call returns the same run for every fuel of at least `maxRetries`
passes, and that run contains exactly one call of `insertDataToDatabase`, for this
server, with one foreign address and one state. -/
theorem connectToServer_records_exactly_one (server : Server) (probe : Nat → ProbeOutcome) :
    ∃ events : List Event,
      (∀ fuel, maxRetries ≤ fuel → connectToServer server probe fuel = some events) ∧
      ∃ fa st, recorded events = [(server, fa, st)] := by
  cases hv : server.IP.Valid with
  | false =>
    exact ⟨_, fun fuel _ => connectToServer_invalid server probe hv fuel, [],
      "Invalid IP".toList, rfl⟩
  | true =>
    obtain ⟨events, fa, st, h1, h2⟩ := recorded_connectLoop_two server probe 0
    refine ⟨events, fun fuel hf => ?_, fa, st, h2⟩
    rw [connectToServer_two server probe hv fuel hf]
    have h3 := connectLoop_two server probe (fuel - 2)
    rw [connectLoop_two server probe 0] at h1
    rw [h3, h1]

/-- C12: for a server whose record has `Valid = false`, whatever the address string,
the outcomes and the fuel, the run is the single call of `insertDataToDatabase`
with an empty foreign address and the state "Invalid IP": no dial is made and no
sleep is taken. -/
theorem connectToServer_invalid_address (server : Server) (probe : Nat → ProbeOutcome)
    (hv : server.IP.Valid = false) (fuel : Nat) :
    ∃ events : List Event, connectToServer server probe fuel = some events ∧
      recorded events = [(server, [], "Invalid IP".toList)] ∧
      attempts events = [] ∧ Event.sleep ∉ events ∧ events.length = 1 := by
  refine ⟨_, connectToServer_invalid server probe hv fuel, rfl, rfl, ?_, rfl⟩
  simp

/-- C12, on a server with an invalid address and outcomes that would all succeed. -/
theorem connectToServer_invalid_address_witness :
    ∃ events : List Event,
      connectToServer ⟨⟨"not an address".toList, false⟩, "A".toList⟩
        (fun _ => .output scenarioLine) 0 = some events ∧
      recorded events =
        [(⟨⟨"not an address".toList, false⟩, "A".toList⟩, [], "Invalid IP".toList)] ∧
      attempts events = [] ∧ Event.sleep ∉ events ∧ events.length = 1 :=
  connectToServer_invalid_address ⟨⟨"not an address".toList, false⟩, "A".toList⟩
    (fun _ => .output scenarioLine) rfl 0

/-! ## The earlier pollers -/

/-- C15 fails on the code: when `session.CombinedOutput` fails and the retry budget is
used up (first pass in the mysql poller, fifth pass in the sqlite poller), the
observation recorded has the empty state, as after a successful probe without
master line. -/
theorem command_failure_records_empty_state :
    (Mysql.connectToServer sampleOldServer (fun _ => .commandFailed false) 1).map Mysql.recorded
      = some [(sampleOldServer, [], [])] ∧
    (Sqlite.connectToServer sampleOldServer (fun _ => .commandFailed) 5).map Mysql.recorded
      = some [(sampleOldServer, [], [])] ∧
    (Mysql.connectToServer sampleOldServer
        (fun _ => .output "tcp 0 0 a:1 b:2 ESTABLISHED".toList false false) 1).map Mysql.recorded
      = some [(sampleOldServer, [], [])] :=
  ⟨by decide, by decide, by decide⟩

theorem splitGo_no_newline (l : GoString) :
    ∀ (cur t : GoString), '\n' ∉ cur → t ∈ splitGo cur l → '\n' ∉ t := by
  induction l with
  | nil =>
    intro cur t hcur h
    simp only [splitGo, List.mem_singleton] at h
    subst h
    simpa using hcur
  | cons c cs ih =>
    intro cur t hcur h
    rw [splitGo] at h
    split at h
    · rcases List.mem_cons.mp h with h1 | h1
      · subst h1; simpa using hcur
      · exact ih [] t (by simp) h1
    · rename_i hc
      refine ih (c :: cur) t ?_ h
      intro hm
      rcases List.mem_cons.mp hm with h1 | h1
      · exact hc h1.symm
      · exact hcur h1

theorem filter_splitSpaceGo (l : GoString) :
    ∀ cur : GoString, (∀ c ∈ l, isSpace c = true → c = ' ') →
      (Mysql.splitSpaceGo cur l).filter (fun t => !t.isEmpty) = fieldsGo cur l := by
  induction l with
  | nil =>
    intro cur _
    rw [Mysql.splitSpaceGo, fieldsGo]
    cases cur <;> simp
  | cons c cs ih =>
    intro cur hl
    have hcs : ∀ d ∈ cs, isSpace d = true → d = ' ' :=
      fun d hd => hl d (List.mem_cons_of_mem _ hd)
    rw [Mysql.splitSpaceGo, fieldsGo]
    by_cases hc : c = ' '
    · subst hc
      have hsp : isSpace ' ' = true := by decide
      rw [if_pos rfl, if_pos hsp, List.filter_cons, ih [] hcs]
      cases cur <;> simp
    · have hsp : ¬ (isSpace c = true) := fun h => hc (hl c (by simp) h)
      rw [if_neg hc, if_neg hsp]
      exact ih (c :: cur) hcs

theorem classifyParts_filter_nonempty (parts : List GoString) :
    classifyParts (parts.filter (fun t => !t.isEmpty)) = classifyParts parts := by
  have h1 : (parts.filter (fun t => !t.isEmpty)).filter (fun t => contains t master)
      = parts.filter (fun t => contains t master) := by
    rw [List.filter_filter]
    apply List.filter_congr
    intro t _
    cases t with
    | nil => decide
    | cons a r => simp
  have h2 : (parts.filter (fun t => !t.isEmpty)).filter isState = parts.filter isState := by
    rw [List.filter_filter]
    apply List.filter_congr
    intro t _
    cases t with
    | nil => decide
    | cons a r => simp
  rw [classifyParts_eq, classifyParts_eq, h1, h2]

theorem classifyParts_splitSpace {line : GoString}
    (hl : ∀ c ∈ line, isSpace c = true → c = ' ') :
    classifyParts (Mysql.splitSpace line) = classifyParts (fields line) := by
  rw [← classifyParts_filter_nonempty]
  unfold Mysql.splitSpace fields
  rw [filter_splitSpaceGo line [] hl]

theorem mysql_classifyLines_eq (lines : List GoString)
    (h : ∀ line ∈ lines, ∀ c ∈ line, isSpace c = true → c = ' ') :
    Mysql.classifyLines lines = classifyLines lines := by
  induction lines with
  | nil => rfl
  | cons line rest ih =>
    rw [Mysql.classifyLines, classifyLines, classifyParts_splitSpace (h line (by simp)),
      ih (fun l hl => h l (List.mem_cons_of_mem _ hl))]

/-- C17: on every output whose only white space characters are the space and the
newline, the classifier of the mysql and sqlite pollers (parts by
`strings.Split(line, " ")`) and the classifier of linux-autoupdate (parts by
`strings.Fields`) return the same pair. -/
theorem mysql_classify_eq_classify (output : GoString)
    (h : ∀ c ∈ output, isSpace c = true → c = ' ' ∨ c = '\n') :
    Mysql.classify output = classify output := by
  unfold Mysql.classify classify
  apply mysql_classifyLines_eq
  intro line hline c hc hsp
  have hsub : line <:+: output := by simpa using splitGo_sub_of_mem output [] line hline
  rcases h c (hsub.subset hc) hsp with h1 | h1
  · exact h1
  · exact absurd (h1 ▸ hc) (splitGo_no_newline output [] line (by simp) hline)

/-- C17, on an output with runs of several spaces around the fields. -/
theorem mysql_classify_eq_classify_witness :
    Mysql.classify "Proto\n  tcp   0 0 a:1   b-master    SYN_SENT  \nx".toList
      = classify "Proto\n  tcp   0 0 a:1   b-master    SYN_SENT  \nx".toList ∧
    classify "Proto\n  tcp   0 0 a:1   b-master    SYN_SENT  \nx".toList
      = ("b-master".toList, "SYN_SENT".toList) :=
  ⟨mysql_classify_eq_classify _ (by decide), by decide⟩

/-! ## The admission gate -/

theorem Engine.step_balanced (e e' : Engine) (st : Step)
    (hb : e.tokens = (if e.holding then 1 else 0) + e.created + e.calling + e.returned)
    (hc : e.tokens ≤ maxConcurrentConnections) (h : e.step st = some e') :
    e'.tokens = (if e'.holding then 1 else 0) + e'.created + e'.calling + e'.returned ∧
      e'.tokens ≤ maxConcurrentConnections := by
  cases st <;> simp only [Engine.step] at h <;> split at h <;>
    first
      | (cases h; done)
      | (rename_i hg
         have h' := Option.some.inj h
         subst h'
         cases hh : e.holding <;> simp [hh] at hb hg ⊢ <;> omega)

theorem Engine.run_balanced (sched : List Step) :
    ∀ (e e' : Engine),
      e.tokens = (if e.holding then 1 else 0) + e.created + e.calling + e.returned →
      e.tokens ≤ maxConcurrentConnections → e.run sched = some e' →
      e'.tokens = (if e'.holding then 1 else 0) + e'.created + e'.calling + e'.returned ∧
        e'.tokens ≤ maxConcurrentConnections := by
  induction sched with
  | nil =>
    intro e e' hb hc h
    simp only [Engine.run, Option.some.injEq] at h
    subst h
    exact ⟨hb, hc⟩
  | cons st rest ih =>
    intro e e' hb hc h
    rw [Engine.run] at h
    cases hs : e.step st with
    | none => rw [hs] at h; simp at h
    | some e1 =>
      rw [hs] at h
      obtain ⟨hb1, hc1⟩ := Engine.step_balanced e e1 st hb hc hs
      exact ih e1 e' hb1 hc1 h

/-- C16: for every number of servers and every schedule of the statements of `main`
and of its goroutines, in every state reached the goroutines inside
`connectToServer` are at most `maxConcurrentConnections` = 100: every goroutine
created and not yet past its receive accounts for one token of the channel, which
never holds more than 100; a goroutine is created only by `main` holding a token
it has sent, and a token is received only by a goroutine whose call has returned. -/
theorem Engine.calling_le_maxConcurrentConnections (n : Nat) (sched : List Step)
    (e : Engine) (h : (Engine.start n).run sched = some e) :
    e.calling ≤ maxConcurrentConnections ∧ maxConcurrentConnections = 100 ∧
    e.tokens = (if e.holding then 1 else 0) + e.created + e.calling + e.returned ∧
    e.tokens ≤ maxConcurrentConnections ∧
    (∀ s : Engine, s.holding = false → s.step .spawn = none) ∧
    (∀ s : Engine, s.tokens = maxConcurrentConnections → s.step .acquire = none) ∧
    (∀ s : Engine, s.returned = 0 → s.step .release = none) := by
  obtain ⟨hb, hc⟩ := Engine.run_balanced sched (Engine.start n) e rfl (Nat.zero_le _) h
  refine ⟨by omega, rfl, hb, hc, ?_, ?_, ?_⟩
  · intro s hs; simp [Engine.step, hs]
  · intro s hs; simp [Engine.step, hs]
  · intro s hs; simp [Engine.step, hs]

/-- C16, on three servers after two goroutines were admitted and one call returned. -/
theorem Engine.calling_le_maxConcurrentConnections_witness :
    (Engine.start 3).run
        [.acquire, .spawn, .enter, .acquire, .spawn, .enter, .leave]
      = some ⟨1, false, 2, 0, 1, 1, 0⟩ ∧
    (1 : Nat) ≤ maxConcurrentConnections :=
  ⟨by decide,
    (Engine.calling_le_maxConcurrentConnections 3
      [.acquire, .spawn, .enter, .acquire, .spawn, .enter, .leave]
      ⟨1, false, 2, 0, 1, 1, 0⟩ (by decide)).1⟩

/-! ## The cache-fronted handlers -/

/-- C13 as stated fails for redis_api_synsent: the cache read reports not-found, the
inventory cannot be fetched, and the handler answers 500 without asking the store. -/
theorem synsent_miss_without_query :
    (sampleEnv .notFound (.error "connection refused".toList)).cache = CacheRead.notFound ∧
    queriesStore (Synsent.getData (sampleEnv .notFound (.error "connection refused".toList)))
      = false ∧
    response (Synsent.getData (sampleEnv .notFound (.error "connection refused".toList)))
      = [Call.httpError "Failed to fetch data".toList 500] :=
  ⟨rfl, by decide, by decide⟩

/-- C13, amended: the store is asked only after a cache read that reports not-found:
by redis_api_netstat after every such read, by redis_api_synsent after every such
read for which the inventory was fetched. When the cache read returns a value, both
handlers set the content type application/json and write that value, with no call
after the cache read but these when the write succeeds, and neither ask the store
nor write the cache; when the cache read fails otherwise, both answer with status
500 and neither ask the store nor write the cache. -/
theorem cache_read_decides_query (env : Env) :
    (queriesStore (RedisApi.getData env) = true ↔ env.cache = .notFound) ∧
    (queriesStore (Synsent.getData env) = true ↔
      env.cache = .notFound ∧ ∃ ids, env.api = .ok ids) ∧
    (∀ cachedData, env.cache = .found cachedData →
      (∃ rest, RedisApi.getData env =
          Call.cacheGet "data2_cache".toList ::
          Call.setHeader "Content-Type".toList "application/json".toList ::
          Call.write cachedData :: rest ∧ (env.writeError = none → rest = [])) ∧
      (∃ rest, Synsent.getData env =
          Call.cacheGet "data2_cache".toList ::
          Call.setHeader "Content-Type".toList "application/json".toList ::
          Call.write cachedData :: rest ∧ (env.writeError = none → rest = [])) ∧
      queriesStore (RedisApi.getData env) = false ∧ writesCache (RedisApi.getData env) = false ∧
      queriesStore (Synsent.getData env) = false ∧ writesCache (Synsent.getData env) = false) ∧
    (∀ err, env.cache = .failed err →
      response (RedisApi.getData env) = [Call.httpError err 500] ∧
      response (Synsent.getData env) = [Call.httpError "Failed to retrieve data".toList 500] ∧
      queriesStore (RedisApi.getData env) = false ∧ writesCache (RedisApi.getData env) = false ∧
      queriesStore (Synsent.getData env) = false ∧ writesCache (Synsent.getData env) = false) := by
  refine ⟨?_, ?_, ?_, ?_⟩
  · cases hc : env.cache <;>
      simp [RedisApi.getData, queriesStore, hc]
    cases env.writeError <;> simp
  · cases hc : env.cache <;> cases ha : env.api <;> cases hq : env.queryError <;>
      cases hw : env.writeError <;>
      simp [Synsent.getData, Synsent.fetchDataFromDBAndAPI, Synsent.sendJSONResponse,
        queriesStore, hc, ha, hq, hw]
  · intro cachedData hc
    refine ⟨?_, ?_, ?_, ?_, ?_, ?_⟩ <;>
      cases hw : env.writeError <;>
      simp [RedisApi.getData, Synsent.getData, Synsent.sendJSONResponse, queriesStore,
        writesCache, hc, hw]
  · intro err hc
    simp [RedisApi.getData, Synsent.getData, queriesStore, writesCache, response, hc,
      StatusInternalServerError]

/-- C14: on a cache miss with a successful aggregation (the query and the marshalling
succeed, and for redis_api_synsent the inventory is fetched), each handler writes
the cache exactly once, the marshalled blob under the key "data2_cache" with a
time-to-live of 600 seconds; its response sets the content type application/json
and writes that same blob; and the response is the same whether `rdb.Set` succeeds
or fails. -/
theorem miss_populates_cache (env : Env) (jsonData : GoString) :
    (env.cache = .notFound → env.queryError = none →
      env.marshal (getQuery env.wt env.store) = .ok jsonData →
      (RedisApi.getData env).filter (fun c => match c with | .cacheSet _ _ _ => true | _ => false)
        = [Call.cacheSet "data2_cache".toList jsonData 600] ∧
      (∃ rest, response (RedisApi.getData env) =
          Call.setHeader "Content-Type".toList "application/json".toList ::
          Call.write jsonData :: rest ∧ (env.writeError = none → rest = [])) ∧
      ∀ setError, response (RedisApi.getData { env with setError := setError })
        = response (RedisApi.getData env)) ∧
    (∀ ids, env.cache = .notFound → env.api = .ok ids → env.queryError = none →
      env.marshal ((getQuery env.wt env.store).filter (fun d => d.IDUnit ∈ ids)) = .ok jsonData →
      (Synsent.getData env).filter (fun c => match c with | .cacheSet _ _ _ => true | _ => false)
        = [Call.cacheSet "data2_cache".toList jsonData 600] ∧
      (∃ rest, response (Synsent.getData env) =
          Call.setHeader "Content-Type".toList "application/json".toList ::
          Call.write jsonData :: rest ∧ (env.writeError = none → rest = [])) ∧
      ∀ setError, response (Synsent.getData { env with setError := setError })
        = response (Synsent.getData env)) := by
  constructor
  · intro hc hq hm
    refine ⟨?_, ?_, ?_⟩
    · cases hs : env.setError <;> cases hw : env.writeError <;>
        simp [RedisApi.getData, hc, hq, hm, hs, hw, tenMinutes]
    · cases hs : env.setError <;> cases hw : env.writeError <;>
        simp [RedisApi.getData, response, hc, hq, hm, hs, hw]
    · intro setError
      cases hs : env.setError <;> cases hw : env.writeError <;> cases setError <;>
        simp [RedisApi.getData, response, hc, hq, hm, hs, hw]
  · intro ids hc ha hq hm
    refine ⟨?_, ?_, ?_⟩
    · cases hs : env.setError <;> cases hw : env.writeError <;>
        simp [Synsent.getData, Synsent.fetchDataFromDBAndAPI, Synsent.sendJSONResponse,
          hc, ha, hq, hm, hs, hw, tenMinutes]
    · cases hs : env.setError <;> cases hw : env.writeError <;>
        simp [Synsent.getData, Synsent.fetchDataFromDBAndAPI, Synsent.sendJSONResponse,
          response, hc, ha, hq, hm, hs, hw]
    · intro setError
      cases hs : env.setError <;> cases hw : env.writeError <;> cases setError <;>
        simp [Synsent.getData, Synsent.fetchDataFromDBAndAPI, Synsent.sendJSONResponse,
          response, hc, ha, hq, hm, hs, hw]

/-- C14, on a miss over the sample store with a cache write that fails: the blob "AB"
is passed to the cache write and written to the response. -/
theorem miss_populates_cache_witness :
    (RedisApi.getData
        { sampleEnv .notFound (.ok []) with setError := some "cache down".toList }).filter
        (fun c => match c with | .cacheSet _ _ _ => true | _ => false)
      = [Call.cacheSet "data2_cache".toList "AB".toList 600] ∧
    response (RedisApi.getData
        { sampleEnv .notFound (.ok []) with setError := some "cache down".toList })
      = [Call.setHeader "Content-Type".toList "application/json".toList,
          Call.write "AB".toList] := by
  obtain ⟨h1, ⟨rest, h2, h3⟩, _⟩ := (miss_populates_cache
    { sampleEnv .notFound (.ok []) with setError := some "cache down".toList }
    "AB".toList).1 rfl rfl (by
      have hq : getQuery foldCase sampleReconnect
          = [obs 2 "A" 20 "SYN_SENT", obs 4 "B" 5 "SYN_SENT"] := by decide
      show Except.ok ((getQuery foldCase sampleReconnect).map (fun d => d.IDUnit)).flatten
        = Except.ok "AB".toList
      rw [hq]
      rfl)
  refine ⟨h1, ?_⟩
  rw [h2, h3 rfl]

end Netstat
